import Mathlib

/-!
Verification of the CacheSC Prime+Probe data-structure engine.

This file shallowly embeds the C sources of the CacheSC library
(cache.h, cache.c, cache_conf.h, util.c, addr_translation.c) in Lean 4
and proves properties of the embedded definitions.

Modelling conventions:
* Pointers are natural numbers (byte addresses); the C constant `NULL`
  is the address `0`.
* The process heap of `cacheline` records is a total function from
  addresses to `Cacheline` records; a store to one field of one record
  is a pointwise function update.
* Machine integers are modelled as `Nat`.  Where C unsigned overflow is
  semantically relevant (the `uint32_t` subtractions and additions in
  `has_collision`, the `uint16_t` truncation in `get_cache_set_helper`)
  the reductions modulo `2 ^ 32` and `2 ^ 16` are written out
  explicitly; elsewhere theorems carry hypotheses keeping the values in
  the verified (non-wrapping) range.
* Unbounded C loops over the linked structure are given explicit fuel
  and return `Option`; `none` models a loop that does not come back to
  its head within the fuel (in C: divergence or a longer walk).
* The libc PRNG `rand()` is an oracle stream `g : Nat → Nat` consumed
  sequentially; `/proc/self/pagemap` reads and physical-address
  translation are likewise oracles.
* The `double` arithmetic of `get_avg` is modelled with exact rational
  arithmetic (`ℚ`): the recurrence of the C code is reproduced verbatim
  over `ℚ`.
* The device-specific configuration header `device_conf.h` ships with
  the sources (its contents are in src/src/util.h, guarded by
  `HEADER_DEVICE_CONF_H`); its compile-time constants are embedded
  below as concrete definitions with the header's values.
-/

namespace CacheSC

/-- a C null pointer. -/
def NULL : Nat := 0

/-- one `cacheline` record (cache_conf.h): `next`/`prev` links of the
intrusive doubly linked list, the tagged cache set, the flag bits and
the last time measurement.  The 40 padding bytes carry no information
and are not modelled. -/
structure Cacheline where
  next : Nat
  prev : Nat
  cache_set : Nat
  flags : Nat
  time_msrmt : Nat
  deriving Repr, DecidableEq

/-- the heap of `cacheline` records: a total map from byte addresses to
records. -/
def Heap : Type := Nat → Cacheline

/-- store to the `next` field of the record at address `a`. -/
def setNext (h : Heap) (a v : Nat) : Heap :=
  fun x => if x = a then { h a with next := v } else h x

/-- store to the `prev` field of the record at address `a`. -/
def setPrev (h : Heap) (a v : Nat) : Heap :=
  fun x => if x = a then { h a with prev := v } else h x

/-- store to the `cache_set` field of the record at address `a`. -/
def setSet (h : Heap) (a v : Nat) : Heap :=
  fun x => if x = a then { h a with cache_set := v } else h x

/-- store to the `flags` field of the record at address `a`. -/
def setFlags (h : Heap) (a v : Nat) : Heap :=
  fun x => if x = a then { h a with flags := v } else h x

/-- store to the `time_msrmt` field of the record at address `a`. -/
def setTime (h : Heap) (a v : Nat) : Heap :=
  fun x => if x = a then { h a with time_msrmt := v } else h x

/-- PAGE_SIZE from device_conf.h (shipped inside src/src/util.h). -/
def PAGE_SIZE : Nat := 4096

/-- PROCESSOR_FREQ from device_conf.h. -/
def PROCESSOR_FREQ : Nat := 2900000000

/-- CACHELINE_SIZE from device_conf.h (64 bytes). -/
def CACHELINE_SIZE : Nat := 64

/-- L1_ADDRESSING from device_conf.h (virtual). -/
def L1_ADDRESSING : Nat := 0

/-- L1_SETS from device_conf.h. -/
def L1_SETS : Nat := 64

/-- L1_ASSOCIATIVITY from device_conf.h. -/
def L1_ASSOCIATIVITY : Nat := 8

/-- L1_ACCESS_TIME from device_conf.h. -/
def L1_ACCESS_TIME : Nat := 4

/-- L2_ADDRESSING from device_conf.h (physical). -/
def L2_ADDRESSING : Nat := 1

/-- L2_SETS from device_conf.h. -/
def L2_SETS : Nat := 512

/-- L2_ASSOCIATIVITY from device_conf.h. -/
def L2_ASSOCIATIVITY : Nat := 8

/-- L2_ACCESS_TIME from device_conf.h. -/
def L2_ACCESS_TIME : Nat := 12

/-- L3_ADDRESSING from device_conf.h (physical). -/
def L3_ADDRESSING : Nat := 1

/-- L3_SETS from device_conf.h. -/
def L3_SETS : Nat := 4096

/-- L3_ASSOCIATIVITY from device_conf.h. -/
def L3_ASSOCIATIVITY : Nat := 16

/-- L3_ACCESS_TIME from device_conf.h. -/
def L3_ACCESS_TIME : Nat := 30

/-- COLLISION_REP from cache.h. -/
def COLLISION_REP : Nat := 100

/-- UINT32_MAX. -/
def UINT32_MAX : Nat := 2 ^ 32 - 1

/-- CACHE_GROUP_SIZE from device_conf.h: PAGE_SIZE / CACHELINE_SIZE. -/
def CACHE_GROUP_SIZE : Nat := PAGE_SIZE / CACHELINE_SIZE

/-- wrap-around addition of two C `uint32_t` values. -/
def u32_add (a b : Nat) : Nat := (a + b) % 2 ^ 32

/-- wrap-around subtraction of two C `uint32_t` values. -/
def u32_sub (a b : Nat) : Nat := (a % 2 ^ 32 + (2 ^ 32 - b % 2 ^ 32)) % 2 ^ 32

/-- the `cache_level` enumeration; C allows any integer value here. -/
abbrev cache_level := Nat

/-- enumerator `L1`. -/
def L1 : cache_level := 0

/-- enumerator `L2`. -/
def L2 : cache_level := 1

/-- the `addressing_type` enumeration. -/
abbrev addressing_type := Nat

/-- enumerator `VIRTUAL`. -/
def VIRTUAL : addressing_type := 0

/-- enumerator `PHYSICAL`. -/
def PHYSICAL : addressing_type := 1

/-- the `cache_ctx` descriptor (cache_conf.h). -/
structure cache_ctx where
  cache_level : cache_level
  addressing : addressing_type
  sets : Nat
  associativity : Nat
  access_time : Nat
  nr_of_cachelines : Nat
  set_size : Nat
  cache_size : Nat
  deriving Repr, DecidableEq

/-- GET_BIT from cache_conf.h. -/
def GET_BIT (b i : Nat) : Nat := ((b &&& (1 <<< i)) >>> i) &&& 1

/-- SET_BIT from cache_conf.h. -/
def SET_BIT (b i : Nat) : Nat := b ||| (1 <<< i)

/-- DEFAULT_FLAGS from cache_conf.h. -/
def DEFAULT_FLAGS : Nat := 0

/-- SET_FIRST from cache_conf.h. -/
def SET_FIRST (flags : Nat) : Nat := SET_BIT flags 0

/-- SET_LAST from cache_conf.h. -/
def SET_LAST (flags : Nat) : Nat := SET_BIT flags 1

/-- SET_CACHE_GROUP_INIT from cache_conf.h. -/
def SET_CACHE_GROUP_INIT (flags : Nat) : Nat := SET_BIT flags 2

/-- IS_FIRST from cache_conf.h. -/
def IS_FIRST (flags : Nat) : Nat := GET_BIT flags 0

/-- IS_LAST from cache_conf.h. -/
def IS_LAST (flags : Nat) : Nat := GET_BIT flags 1

/-- IS_CACHE_GROUP_INIT from cache_conf.h. -/
def IS_CACHE_GROUP_INIT (flags : Nat) : Nat := GET_BIT flags 2

/-- SET_MASK from cache_conf.h: the bit mask selecting the set-index
bits of an address. -/
def SET_MASK (SETS : Nat) : Nat :=
  (SETS * CACHELINE_SIZE - 1) ^^^ (CACHELINE_SIZE - 1)

/-- get_cache_set_helper from cache_conf.h; the result is stored into a
`uint16_t`, hence the reduction modulo `2 ^ 16`. -/
def get_cache_set_helper (sets ptr : Nat) : Nat :=
  ((ptr &&& SET_MASK sets) / CACHELINE_SIZE) % 2 ^ 16

/-- get_virt_cache_set from cache_conf.h. -/
def get_virt_cache_set (ctx : cache_ctx) (ptr : Nat) : Nat :=
  get_cache_set_helper ctx.sets ptr

/-- get_phys_cache_set from cache_conf.h; the virtual-to-physical
translation (which the C code obtains from `get_phys_addr` and asserts
to succeed) is an oracle `phys`. -/
def get_phys_cache_set (ctx : cache_ctx) (phys : Nat → Nat) (ptr : Nat) : Nat :=
  get_cache_set_helper ctx.sets (phys ptr)

/-- remove_cache_set from cache_conf.h. -/
def remove_cache_set (ctx : cache_ctx) (ptr : Nat) : Nat :=
  ptr &&& (2 ^ 64 - 1 - SET_MASK ctx.sets)

/-- remove_cache_group_set from cache_conf.h. -/
def remove_cache_group_set (ptr : Nat) : Nat :=
  ptr &&& (2 ^ 64 - 1 - SET_MASK CACHE_GROUP_SIZE)

/-- get_cache_ctx from cache_conf.h: selects the geometry configured in
device_conf.h for `L1` or `L2` and fills the derived fields; for any
other level the function returns a null pointer (`none`), exactly as
the C code and its comment ("Returns null for unsupported or unknown
cache level") say. -/
def get_cache_ctx (lvl : cache_level) : Option cache_ctx :=
  if lvl = L1 then
    some { cache_level := lvl, addressing := L1_ADDRESSING,
           sets := L1_SETS, associativity := L1_ASSOCIATIVITY,
           access_time := L1_ACCESS_TIME,
           nr_of_cachelines := L1_SETS * L1_ASSOCIATIVITY,
           set_size := CACHELINE_SIZE * L1_ASSOCIATIVITY,
           cache_size := L1_SETS * (CACHELINE_SIZE * L1_ASSOCIATIVITY) }
  else if lvl = L2 then
    some { cache_level := lvl, addressing := L2_ADDRESSING,
           sets := L2_SETS, associativity := L2_ASSOCIATIVITY,
           access_time := L2_ACCESS_TIME,
           nr_of_cachelines := L2_SETS * L2_ASSOCIATIVITY,
           set_size := CACHELINE_SIZE * L2_ASSOCIATIVITY,
           cache_size := L2_SETS * (CACHELINE_SIZE * L2_ASSOCIATIVITY) }
  else
    none

/-- cl_replace from cache_conf.h: `old_cl`'s neighbours are rewired to
`new_cl`, then `new_cl` takes over `old_cl`'s links; the stores and the
intermediate reads happen in exactly the order of the C statements. -/
def cl_replace (h : Heap) (new_cl old_cl : Nat) : Heap :=
  let h1 := setPrev h ((h old_cl).next) new_cl
  let h2 := setNext h1 ((h1 old_cl).prev) new_cl
  let h3 := setNext h2 new_cl ((h2 old_cl).next)
  setPrev h3 new_cl ((h3 old_cl).prev)

/-- cl_insert from cache_conf.h: a null anchor makes `new_cl` a
singleton ring, otherwise `new_cl` is spliced after `last_cl`. -/
def cl_insert (h : Heap) (last_cl new_cl : Nat) : Heap :=
  if last_cl = NULL then
    setPrev (setNext h new_cl new_cl) new_cl new_cl
  else
    let h1 := setNext h new_cl ((h last_cl).next)
    let h2 := setPrev h1 new_cl last_cl
    let h3 := setPrev h2 ((h2 last_cl).next) new_cl
    setNext h3 last_cl new_cl

/-- cl_remove from cache_conf.h. -/
def cl_remove (h : Heap) (cl : Nat) : Heap :=
  let h1 := if (h cl).prev ≠ NULL then setNext h ((h cl).prev) ((h cl).next) else h
  if (h1 cl).next ≠ NULL then setPrev h1 ((h1 cl).next) ((h1 cl).prev) else h1

/-- the loop of get_cache_ds_len (cache_conf.h): walk `prev` links,
counting, until the walk returns to `cache_ds` or meets a null pointer;
`fuel` bounds the walk. -/
def get_cache_ds_len_loop (h : Heap) (cache_ds : Nat) :
    Nat → Nat → Nat → Option Nat
  | _, _, 0 => none
  | curr, cnt, fuel + 1 =>
      if curr = NULL then some cnt
      else
        let cnt' := cnt + 1
        let curr' := (h curr).prev
        if curr' = cache_ds then some cnt'
        else get_cache_ds_len_loop h cache_ds curr' cnt' fuel

/-- get_cache_ds_len from cache_conf.h. -/
def get_cache_ds_len (h : Heap) (cache_ds : Nat) (fuel : Nat) : Option Nat :=
  get_cache_ds_len_loop h cache_ds cache_ds 0 fuel

/-- the do-while loop of `prime` (cache.h): follow `next` links from
`head` until the walk is back at `head`; returns the line at which the
loop stopped (always `head`) or `none` when the fuel is exhausted. -/
def prime_loop (h : Heap) (head : Nat) : Nat → Nat → Option Nat
  | _, 0 => none
  | curr, fuel + 1 =>
      let c := (h curr).next
      if c = head then some c else prime_loop h head c fuel

/-- prime from cache.h: traverse the whole ring forward (the loads and
fences have no effect on the modelled state) and return the predecessor
of the line at which the traversal stopped. -/
def prime (h : Heap) (head : Nat) (fuel : Nat) : Option Nat :=
  (prime_loop h head head fuel).map (fun c => (h c).prev)

/-- the do-while loop of `prime_rev` (cache.h): follow `prev` links
from `head` until the walk is back at `head`. -/
def prime_rev_loop (h : Heap) (head : Nat) : Nat → Nat → Option Nat
  | _, 0 => none
  | curr, fuel + 1 =>
      let c := (h curr).prev
      if c = head then some c else prime_rev_loop h head c fuel

/-- prime_rev from cache.h: traverse the whole ring backward and return
`curr_cl->prev` of the line at which the traversal stopped. -/
def prime_rev (h : Heap) (head : Nat) (fuel : Nat) : Option Nat :=
  (prime_rev_loop h head head fuel).map (fun c => (h c).prev)

/-- swap from util.c: exchange the entries at positions `i` and `j` of
an array (arrays are modelled as index-to-value maps). -/
def swap (arr : Nat → Nat) (i j : Nat) : Nat → Nat :=
  fun x => if x = j then arr i else if x = i then arr j else arr x

/-- the countdown loop of random_perm (util.c), for
`i = arr_len - 1, …, 1`: swap positions `i` and `rand() % i`.  The
PRNG is the oracle stream `g`, consumed from index `k0` on. -/
def random_perm_loop (g : Nat → Nat) : Nat → Nat → (Nat → Nat) → (Nat → Nat)
  | _, 0, arr => arr
  | k0, i + 1, arr =>
      let swap_idx := g k0 % (i + 1)
      random_perm_loop g (k0 + 1) i (swap arr (i + 1) swap_idx)

/-- random_perm from util.c.  For `arr_len = 0` the C loop counter
underflows (undefined behaviour: out-of-bounds accesses); the model
then performs no swap. -/
def random_perm (g : Nat → Nat) (k0 : Nat) (arr : Nat → Nat) (arr_len : Nat) :
    Nat → Nat :=
  random_perm_loop g k0 (arr_len - 1) arr

/-- gen_random_indices from util.c: fill the array with
`0, 1, …, arr_len - 1` and shuffle it with random_perm.  (The model
initialises every index; the C code initialises exactly the cells
`0 … arr_len - 1`, the only ones its callers read.) -/
def gen_random_indices (g : Nat → Nat) (k0 : Nat) (arr_len : Nat) : Nat → Nat :=
  random_perm g k0 (fun i => i) arr_len

/-- is_in_arr from util.c. -/
def is_in_arr (elem : Nat) (arr : Nat → Nat) (arr_len : Nat) : Bool :=
  (List.range arr_len).any (fun i => arr i = elem)

/-- get_avg from util.c: the continuous-average recurrence, computed in
C over `double` and modelled here with exact rational arithmetic. -/
def get_avg (arr : Nat → Nat) (arr_len : Nat) : ℚ :=
  (List.range arr_len).foldl
    (fun avg i => ((i : ℕ) * avg + ((arr i : ℕ) : ℚ)) / ((i : ℕ) + 1)) 0

/-- get_max from util.c. -/
def get_max (arr : Nat → Nat) (arr_len : Nat) : Nat :=
  (List.range arr_len).foldl (fun m i => if arr i > m then arr i else m) 0

/-- get_min from util.c. -/
def get_min (arr : Nat → Nat) (arr_len : Nat) : Nat :=
  (List.range arr_len).foldl (fun m i => if arr i < m then arr i else m) UINT32_MAX

/-- a parsed pagemap entry (addr_translation.h). -/
structure PagemapEntry where
  pfn : Nat
  soft_dirty : Nat
  file_page : Nat
  swapped : Nat
  present : Nat
  deriving Repr, DecidableEq

/-- pagemap_get_entry from addr_translation.c: read the 8-byte pagemap
entry at byte offset `8 * (vaddr / page_size)` and parse its fields.
The `pread` loop on the open pagemap file descriptor is the oracle
`pread : byte-offset → Option data`; `none` covers every way the read
can fail (C returns 1). -/
def pagemap_get_entry (pread : Nat → Option Nat) (page_size vaddr : Nat) :
    Option PagemapEntry :=
  let vpn := vaddr / page_size
  match pread (vpn * 8) with
  | none => none
  | some data =>
      some { pfn := data &&& (2 ^ 54 - 1),
             soft_dirty := (data >>> 54) &&& 1,
             file_page := (data >>> 61) &&& 1,
             swapped := (data >>> 62) &&& 1,
             present := (data >>> 63) &&& 1 }

/-- get_phys_addr from addr_translation.c: translate a virtual address
of the current process.  `none` models the nonzero error return (the
pagemap cannot be opened or read, or the caller lacks the privilege to
see frame numbers and the entry's pfn field is zero); `some paddr`
models success, with `*paddr` written.  On the failure paths the C code
returns before ever writing `*paddr`. -/
def get_phys_addr (pread : Nat → Option Nat) (page_size vaddr : Nat) :
    Option Nat :=
  match pagemap_get_entry pread page_size vaddr with
  | none => none
  | some entry =>
      if entry.pfn = 0 then none
      else some (entry.pfn * page_size + vaddr % page_size)

/-- state of the sorting loop of build_cache_ds (cache.c): the array
`cl_ptr_arr_sorted` under construction and the per-set fill counters
`idx_per_set`. -/
structure SortState where
  sorted : Nat → Nat
  idx_per_set : Nat → Nat

/-- one iteration of the sorting loop of build_cache_ds: place
`cl_ptr_arr[i]` at position `cache_set * set_len + idx_per_set[cache_set]`
of `cl_ptr_arr_sorted` and bump that set's counter. -/
def sort_step (set_len : Nat) (h : Heap) (cl_ptr_arr : Nat → Nat)
    (st : SortState) (i : Nat) : SortState :=
  let cl := cl_ptr_arr i
  let s := (h cl).cache_set
  let set_offset := s * set_len
  let idx_curr_set := st.idx_per_set s
  { sorted := fun p => if p = set_offset + idx_curr_set then cl else st.sorted p,
    idx_per_set := fun q => if q = s then st.idx_per_set q + 1 else st.idx_per_set q }

/-- the sorting loop of build_cache_ds: build the pointer list sorted
by sets.  (`calloc` zero-initialises `idx_per_set`; the `malloc`-ed
`cl_ptr_arr_sorted` starts as garbage, modelled as all zeros.) -/
def sort_cls (ctx : cache_ctx) (h : Heap) (cl_ptr_arr : Nat → Nat) : SortState :=
  (List.range ctx.nr_of_cachelines).foldl
    (sort_step ctx.associativity h cl_ptr_arr)
    { sorted := fun _ => 0, idx_per_set := fun _ => 0 }

/-- one iteration of the loop of build_randomized_list_for_cache_set
(cache.c): link position `idx_map[i]` of the set's pointer array to its
ring neighbours, clear its time measurement and maintain the
FIRST/LAST flags, with the stores in exactly the C order. -/
def brl_step (cacheline_ptr_arr idx_map : Nat → Nat) (len : Nat)
    (h : Heap) (i : Nat) : Heap :=
  let curr_cl := cacheline_ptr_arr (idx_map i)
  let h1 := setNext h curr_cl (cacheline_ptr_arr (idx_map ((i + 1) % len)))
  let h2 := setPrev h1 curr_cl (cacheline_ptr_arr (idx_map ((len - 1 + i) % len)))
  let h3 := setTime h2 curr_cl 0
  if curr_cl = cacheline_ptr_arr 0 then
    let h4 := setFlags h3 curr_cl (SET_FIRST DEFAULT_FLAGS)
    setFlags h4 ((h4 curr_cl).prev) (SET_LAST DEFAULT_FLAGS)
  else
    setFlags h3 curr_cl ((h3 curr_cl).flags ||| DEFAULT_FLAGS)

/-- build_randomized_list_for_cache_set from cache.c: draw a random
index permutation (consuming `associativity - 1` PRNG values from
offset `k0`) and link the set's lines into a ring in that order. -/
def build_randomized_list_for_cache_set (ctx : cache_ctx) (g : Nat → Nat)
    (k0 : Nat) (h : Heap) (cacheline_ptr_arr : Nat → Nat) : Heap :=
  let idx_map := gen_random_indices g k0 ctx.associativity
  (List.range ctx.associativity).foldl
    (brl_step cacheline_ptr_arr idx_map ctx.associativity) h

/-- state of the set-relinking loop of build_cache_ds: the heap and the
loop variable `curr_cl`. -/
structure RelinkState where
  h : Heap
  curr_cl : Nat

/-- one iteration of the set-relinking loop of build_cache_ds: point
`curr_cl->next` at the first line of the next set in the randomised
set order, read that line's old `prev` (the last line of that set),
rewire its `prev` to `curr_cl`, and move `curr_cl` there. -/
def relink_step (sorted idx_map : Nat → Nat) (sets set_len : Nat)
    (st : RelinkState) (i : Nat) : RelinkState :=
  let h1 := setNext st.h st.curr_cl (sorted (idx_map ((i + 1) % sets) * set_len))
  let nxt := (h1 st.curr_cl).next
  let next_cl := (h1 nxt).prev
  let h2 := setPrev h1 nxt st.curr_cl
  { h := h2, curr_cl := next_cl }

/-- the per-set loop of build_cache_ds (cache.c): build the randomised
doubly linked list of each of the first `u` sets, each call drawing
`associativity - 1` PRNG values. -/
def bcd_sets_fold (ctx : cache_ctx) (g : Nat → Nat) (k0 : Nat)
    (sorted : Nat → Nat) (h : Heap) (u : Nat) : Heap :=
  (List.range u).foldl
    (fun hh set =>
      build_randomized_list_for_cache_set ctx g
        (k0 + set * (ctx.associativity - 1)) hh
        (fun j => sorted (set * ctx.associativity + j))) h

/-- build_cache_ds from cache.c: sort the line pointers by set, build a
randomised ring per set (each drawing `associativity - 1` PRNG values),
draw a random set order (`sets - 1` further PRNG values), relink the
sets into one ring and return the new heap together with the entry
line `cl_ptr_arr_sorted[idx_map[0] * set_len]`. -/
def build_cache_ds (ctx : cache_ctx) (g : Nat → Nat) (k0 : Nat) (h : Heap)
    (cl_ptr_arr : Nat → Nat) : Heap × Nat :=
  let sorted := (sort_cls ctx h cl_ptr_arr).sorted
  let set_len := ctx.associativity
  let h2 := bcd_sets_fold ctx g k0 sorted h ctx.sets
  let idx_map := gen_random_indices g (k0 + ctx.sets * (ctx.associativity - 1)) ctx.sets
  let curr0 := (h2 (sorted (idx_map 0 * set_len))).prev
  let final := (List.range ctx.sets).foldl
    (relink_step sorted idx_map ctx.sets set_len) { h := h2, curr_cl := curr0 }
  (final.h, sorted (idx_map 0 * set_len))

/-- the virtual branch of allocate_cache_ds (cache.c): one page-aligned
block of `cache_size` bytes at address `cl_arr`; line `i` lives at
`cl_arr + i` (64-byte stride) and is tagged with its virtually derived
set index. -/
def allocate_cache_ds_virt (ctx : cache_ctx) (cl_arr : Nat) (h : Heap) :
    (Nat → Nat) × Heap :=
  ((fun i => cl_arr + CACHELINE_SIZE * i),
   (List.range ctx.nr_of_cachelines).foldl
     (fun hh i =>
       setSet hh (cl_arr + CACHELINE_SIZE * i)
         (get_virt_cache_set ctx (cl_arr + CACHELINE_SIZE * i))) h)

/-- the counting walk of cache_ds_sanity_check (cache.c): follow `next`
links from `head`, bumping the count of each visited line's set, until
the walk is back at `head`; `none` when the fuel runs out first. -/
def sanity_walk (h : Heap) (head : Nat) :
    Nat → Nat → (Nat → Nat) → Option (Nat → Nat)
  | _, 0, _ => none
  | curr, fuel + 1, cnt =>
      let c := (h curr).next
      let cnt' := fun s => if s = (h c).cache_set then cnt s + 1 else cnt s
      if c = head then some cnt'
      else sanity_walk h head c fuel cnt'

/-- cache_ds_sanity_check from cache.c: count the lines of each set
along one full forward traversal and demand exactly `associativity`
lines per set; returns `some 0` on success, `some 1` on a wrong count,
`none` when the walk does not close within the fuel. -/
def cache_ds_sanity_check (ctx : cache_ctx) (h : Heap) (head : Nat)
    (fuel : Nat) : Option Nat :=
  match sanity_walk h head head fuel (fun _ => 0) with
  | none => none
  | some cnt =>
      if (List.range ctx.sets).all (fun i => cnt i = ctx.associativity)
      then some 0 else some 1

/-- the pointer-collecting walk of release_cache_ds (cache.c), physical
branch: follow `next` links from `cache_ds`, record each line's page
base (deduplicated by linear scan, preserving first-seen order) and
stop when the next line is `cache_ds` again. -/
def release_walk (h : Heap) (cache_ds : Nat) :
    Nat → Nat → List Nat → Option (List Nat)
  | _, 0, _ => none
  | curr, fuel + 1, acc =>
      let next_cl := (h curr).next
      let cl_base := remove_cache_group_set curr
      let acc' := if cl_base ∈ acc then acc else acc ++ [cl_base]
      if next_cl = cache_ds then some acc'
      else release_walk h cache_ds next_cl fuel acc'

/-- release_cache_ds from cache.c: a null structure returns at once
(nothing freed); a virtual structure frees the single backing block;
a physical structure walks the ring collecting the distinct page bases
and frees each once.  The returned list holds the pointers passed to
`free`, in order. -/
def release_cache_ds (ctx : cache_ctx) (h : Heap)
    (cache_ds : Nat) (fuel : Nat) : Option (List Nat) :=
  if cache_ds = NULL then some []
  else if ctx.addressing = VIRTUAL then some [remove_cache_set ctx cache_ds]
  else release_walk h cache_ds cache_ds fuel []

/-- state of the page-allocation loop of allocate_cache_ds_phys_priv
(cache.c): heap, per-set line counters, the pointer array under
construction with its fill index, and the head of the deferred-release
list. -/
structure PhysPrivState where
  h : Heap
  cnt_lines_per_set : Nat → Nat
  cl_ptr_arr : Nat → Nat
  cl_ptr_idx : Nat
  cls_to_del : Nat

/-- the `memset(cl_candidates, 0, PAGE_SIZE)` of the allocation loops:
zero every record in the page. -/
def memset_page (h : Heap) (page : Nat) : Heap :=
  fun x => if page ≤ x ∧ x < page + PAGE_SIZE
           then { next := 0, prev := 0, cache_set := 0, flags := 0, time_msrmt := 0 }
           else h x

/-- the body of the accepting inner loop of allocate_cache_ds_phys_priv
(cache.c): tag line `i` of the page with its physical set, append it to
the pointer array and bump its set's counter. -/
def phys_priv_accept_step (ctx : cache_ctx) (phys : Nat → Nat)
    (cl_candidates : Nat) (s : PhysPrivState) (i : Nat) : PhysPrivState :=
  let a := cl_candidates + CACHELINE_SIZE * i
  let cs := get_phys_cache_set ctx phys a
  { s with
    h := setSet s.h a cs,
    cl_ptr_arr := fun x => if x = s.cl_ptr_idx then a else s.cl_ptr_arr x,
    cl_ptr_idx := s.cl_ptr_idx + 1,
    cnt_lines_per_set :=
      fun q => if q = cs then s.cnt_lines_per_set q + 1
               else s.cnt_lines_per_set q }

/-- one iteration of the loop of allocate_cache_ds_phys_priv (cache.c):
zero the freshly allocated page; if the physical set of its first line
still has room, accept all `CACHE_GROUP_SIZE` lines of the page,
otherwise push the page onto the deferred-release list.  `phys` is the
virtual-to-physical translation oracle (asserted by the C code to
succeed). -/
def allocate_cache_ds_phys_priv_step (ctx : cache_ctx)
    (phys : Nat → Nat) (st : PhysPrivState) (cl_candidates : Nat) :
    PhysPrivState :=
  let st0 := { st with h := memset_page st.h cl_candidates }
  if st0.cnt_lines_per_set (get_phys_cache_set ctx phys cl_candidates)
      < ctx.associativity then
    (List.range CACHE_GROUP_SIZE).foldl
      (phys_priv_accept_step ctx phys cl_candidates) st0
  else
    { st0 with h := setPrev st0.h cl_candidates st.cls_to_del,
               cls_to_del := cl_candidates }

/-- the while loop of allocate_cache_ds_phys_priv (cache.c): repeat the
page step until the pointer array holds `nr_of_cachelines` lines.  The
successive `aligned_alloc(PAGE_SIZE, PAGE_SIZE)` results (addresses
chosen by the kernel allocator, asserted non-null by the C code) are
the oracle `alloc`; `none` models a loop that does not fill the array
within the fuel. -/
def allocate_cache_ds_phys_priv (ctx : cache_ctx) (phys alloc : Nat → Nat) :
    Nat → Nat → PhysPrivState → Option PhysPrivState
  | _, 0, st =>
      if st.cl_ptr_idx < ctx.nr_of_cachelines then none else some st
  | j, fuel + 1, st =>
      if st.cl_ptr_idx < ctx.nr_of_cachelines then
        allocate_cache_ds_phys_priv ctx phys alloc (j + 1) fuel
          (allocate_cache_ds_phys_priv_step ctx phys st (alloc j))
      else some st

/-- allocate_cache_ds_phys from cache.c: with translation privileges
(the `can_trans_phys_addrs` probe, an environment oracle) the counting
privileged builder runs; without them the measurement-driven
unprivileged builder runs, whose outcome — a pointer array and heap
determined by the prime-and-probe timing measurements — enters as the
oracle `unpriv`.  The trailing frees of the deferred-release list do
not change the modelled heap. -/
def allocate_cache_ds_phys (ctx : cache_ctx) (can_trans : Bool)
    (phys alloc : Nat → Nat) (unpriv : Option ((Nat → Nat) × Heap))
    (fuel : Nat) (h : Heap) : Option ((Nat → Nat) × Heap) :=
  if can_trans then
    (allocate_cache_ds_phys_priv ctx phys alloc 0 fuel
      { h := h, cnt_lines_per_set := fun _ => 0, cl_ptr_arr := fun _ => 0,
        cl_ptr_idx := 0, cls_to_del := NULL }).map
      (fun st => (st.cl_ptr_arr, st.h))
  else unpriv

/-- allocate_cache_ds from cache.c: dispatch on `ctx.addressing`
between the virtual one-block allocation (a page-aligned block at
`cl_arr`) and the physical builders; for any other addressing value the
`malloc`-ed pointer array is returned untouched (garbage, modelled as
all zeros). -/
def allocate_cache_ds (ctx : cache_ctx) (can_trans : Bool)
    (phys alloc : Nat → Nat) (unpriv : Option ((Nat → Nat) × Heap))
    (fuel cl_arr : Nat) (h : Heap) : Option ((Nat → Nat) × Heap) :=
  if ctx.addressing = VIRTUAL then
    some (allocate_cache_ds_virt ctx cl_arr h)
  else if ctx.addressing = PHYSICAL then
    allocate_cache_ds_phys ctx can_trans phys alloc unpriv fuel h
  else some (fun _ => 0, h)

/-- prepare_cache_ds from cache.c: allocate the lines (dispatching on
the context's addressing), build the randomised two-level ring and
assert the sanity check.  `some (heap, entry)` models a normal return;
`none` models a failed allocation loop or the failed assertion (abort).
The sanity walk is given `nr_of_cachelines` fuel, the length of one
full forward traversal of a correct structure. -/
def prepare_cache_ds (ctx : cache_ctx) (g : Nat → Nat) (can_trans : Bool)
    (phys alloc : Nat → Nat) (unpriv : Option ((Nat → Nat) × Heap))
    (fuel cl_arr : Nat) (h : Heap) : Option (Heap × Nat) :=
  (allocate_cache_ds ctx can_trans phys alloc unpriv fuel cl_arr h).bind
    (fun al =>
      let bd := build_cache_ds ctx g 0 al.2 al.1
      match cache_ds_sanity_check ctx bd.1 bd.2 ctx.nr_of_cachelines with
      | some 0 => some bd
      | _ => none)

/-- state of the rotation loop of has_collision (cache.c): heap, the
rotation head `cl_head`, the number of timing-oracle values consumed so
far, and the collision vote count. -/
structure HasCollisionState where
  h : Heap
  cl_head : Nat
  tcnt : Nat
  collisions_overall : Nat

/-- one rotation of has_collision (cache.c): take `COLLISION_REP`
full-probe baseline times (their minimum is the baseline), splice the
candidate in place of the rotation head, take `COLLISION_REP` further
full-probe times (their continuous average is the test value), vote a
collision when the average is at least
`baseline + L3_ACCESS_TIME - L2_ACCESS_TIME` (computed in `uint32_t`,
compared as `double`), splice the head back and advance the head.  The
timing oracle `t` yields the successive probe_full_ds measurements. -/
def has_collision_step (t : Nat → Nat)
    (cl_candidate : Nat) (st : HasCollisionState) : HasCollisionState :=
  let baseline_time := get_min (fun i => t (st.tcnt + i)) COLLISION_REP
  let h1 := cl_replace st.h cl_candidate st.cl_head
  let avg := get_avg (fun i => t (st.tcnt + COLLISION_REP + i)) COLLISION_REP
  let votes :=
    if ((u32_sub (u32_add baseline_time L3_ACCESS_TIME) L2_ACCESS_TIME : Nat) : ℚ)
        ≤ avg
    then st.collisions_overall + 1 else st.collisions_overall
  let h2 := cl_replace h1 st.cl_head cl_candidate
  { h := h2, cl_head := (h2 st.cl_head).next,
    tcnt := st.tcnt + 2 * COLLISION_REP, collisions_overall := votes }

/-- the do-while rotation loop of has_collision: rotate until the head
is back at `cache_set_ds`; `none` when the fuel runs out first. -/
def has_collision_loop (t : Nat → Nat)
    (cl_candidate cache_set_ds : Nat) :
    Nat → HasCollisionState → Option Nat
  | 0, _ => none
  | fuel + 1, st =>
      let st' := has_collision_step t cl_candidate st
      if st'.cl_head = cache_set_ds then some st'.collisions_overall
      else has_collision_loop t cl_candidate cache_set_ds fuel st'

/-- has_collision from cache.c: run one voting rotation per start line
of the ring and report a collision when at least
`cache_set_ds_len - associativity` rotations (a `uint32_t`
subtraction) voted one. -/
def has_collision (ctx : cache_ctx) (t : Nat → Nat)
    (h : Heap) (cl_candidate cache_set_ds cache_set_ds_len fuel : Nat) :
    Option Bool :=
  (has_collision_loop t cl_candidate cache_set_ds fuel
      { h := h, cl_head := cache_set_ds, tcnt := 0, collisions_overall := 0 }).map
    (fun c => decide (u32_sub cache_set_ds_len ctx.associativity ≤ c))

/-- iterated `next` pointer: the line reached from `a` after `k`
forward steps. -/
def nextIterate (h : Heap) (a k : Nat) : Nat :=
  (fun x => (h x).next)^[k] a

/-- iterated `prev` pointer: the line reached from `a` after `k`
backward steps. -/
def prevIterate (h : Heap) (a k : Nat) : Nat :=
  (fun x => (h x).prev)^[k] a

/-- specification vocabulary: `ord` enumerates, with period `n`, a
cyclic doubly linked ring of the heap `h`. -/
def ring_linked (h : Heap) (ord : Nat → Nat) (n : Nat) : Prop :=
  ∀ p, p < n →
    (h (ord p)).next = ord ((p + 1) % n) ∧
    (h (ord p)).prev = ord ((p + (n - 1)) % n)

/-- specification vocabulary: `ord` hits pairwise distinct addresses on
`[0, n)`. -/
def ring_nodup (ord : Nat → Nat) (n : Nat) : Prop :=
  ∀ p, p < n → ∀ q, q < n → ord p = ord q → p = q

/-- specification vocabulary for has_collision: the number of ring
rotations whose test average (`COLLISION_REP` oracle values, taken
after the `COLLISION_REP` baseline values of the same rotation) is at
least the rotation's baseline minimum plus the L3/L2 gap. -/
def rotation_votes (t : Nat → Nat) (rotations : Nat) : Nat :=
  (List.range rotations).countP
    (fun r =>
      ((u32_sub
          (u32_add (get_min (fun i => t (2 * COLLISION_REP * r + i)) COLLISION_REP)
            L3_ACCESS_TIME)
          L2_ACCESS_TIME : Nat) : ℚ)
        ≤ get_avg (fun i => t (2 * COLLISION_REP * r + COLLISION_REP + i)) COLLISION_REP)

/-- a constant heap used as a test fixture. -/
def heap0 : Heap := fun _ => { next := 0, prev := 0, cache_set := 0, flags := 0, time_msrmt := 0 }

/-- a three-element ring 10 → 11 → 12 → 10 used as a test fixture. -/
def heap3 : Heap := fun a =>
  if a = 10 then { next := 11, prev := 12, cache_set := 0, flags := 0, time_msrmt := 0 }
  else if a = 11 then { next := 12, prev := 10, cache_set := 1, flags := 0, time_msrmt := 0 }
  else if a = 12 then { next := 10, prev := 11, cache_set := 2, flags := 0, time_msrmt := 0 }
  else { next := 0, prev := 0, cache_set := 0, flags := 0, time_msrmt := 0 }

/-- the address enumeration of the `heap3` ring. -/
def ord3 : Nat → Nat := fun p => 10 + p % 3

@[simp] theorem next_setNext (h : Heap) (a v x : Nat) :
    ((setNext h a v) x).next = if x = a then v else (h x).next := by
  by_cases hx : x = a <;> simp [setNext, hx]

@[simp] theorem prev_setNext (h : Heap) (a v x : Nat) :
    ((setNext h a v) x).prev = (h x).prev := by
  by_cases hx : x = a <;> simp [setNext, hx]

@[simp] theorem cache_set_setNext (h : Heap) (a v x : Nat) :
    ((setNext h a v) x).cache_set = (h x).cache_set := by
  by_cases hx : x = a <;> simp [setNext, hx]

@[simp] theorem flags_setNext (h : Heap) (a v x : Nat) :
    ((setNext h a v) x).flags = (h x).flags := by
  by_cases hx : x = a <;> simp [setNext, hx]

@[simp] theorem time_setNext (h : Heap) (a v x : Nat) :
    ((setNext h a v) x).time_msrmt = (h x).time_msrmt := by
  by_cases hx : x = a <;> simp [setNext, hx]

@[simp] theorem prev_setPrev (h : Heap) (a v x : Nat) :
    ((setPrev h a v) x).prev = if x = a then v else (h x).prev := by
  by_cases hx : x = a <;> simp [setPrev, hx]

@[simp] theorem next_setPrev (h : Heap) (a v x : Nat) :
    ((setPrev h a v) x).next = (h x).next := by
  by_cases hx : x = a <;> simp [setPrev, hx]

@[simp] theorem cache_set_setPrev (h : Heap) (a v x : Nat) :
    ((setPrev h a v) x).cache_set = (h x).cache_set := by
  by_cases hx : x = a <;> simp [setPrev, hx]

@[simp] theorem flags_setPrev (h : Heap) (a v x : Nat) :
    ((setPrev h a v) x).flags = (h x).flags := by
  by_cases hx : x = a <;> simp [setPrev, hx]

@[simp] theorem time_setPrev (h : Heap) (a v x : Nat) :
    ((setPrev h a v) x).time_msrmt = (h x).time_msrmt := by
  by_cases hx : x = a <;> simp [setPrev, hx]

@[simp] theorem cache_set_setSet (h : Heap) (a v x : Nat) :
    ((setSet h a v) x).cache_set = if x = a then v else (h x).cache_set := by
  by_cases hx : x = a <;> simp [setSet, hx]

@[simp] theorem next_setSet (h : Heap) (a v x : Nat) :
    ((setSet h a v) x).next = (h x).next := by
  by_cases hx : x = a <;> simp [setSet, hx]

@[simp] theorem prev_setSet (h : Heap) (a v x : Nat) :
    ((setSet h a v) x).prev = (h x).prev := by
  by_cases hx : x = a <;> simp [setSet, hx]

@[simp] theorem flags_setSet (h : Heap) (a v x : Nat) :
    ((setSet h a v) x).flags = (h x).flags := by
  by_cases hx : x = a <;> simp [setSet, hx]

@[simp] theorem time_setSet (h : Heap) (a v x : Nat) :
    ((setSet h a v) x).time_msrmt = (h x).time_msrmt := by
  by_cases hx : x = a <;> simp [setSet, hx]

@[simp] theorem flags_setFlags (h : Heap) (a v x : Nat) :
    ((setFlags h a v) x).flags = if x = a then v else (h x).flags := by
  by_cases hx : x = a <;> simp [setFlags, hx]

@[simp] theorem next_setFlags (h : Heap) (a v x : Nat) :
    ((setFlags h a v) x).next = (h x).next := by
  by_cases hx : x = a <;> simp [setFlags, hx]

@[simp] theorem prev_setFlags (h : Heap) (a v x : Nat) :
    ((setFlags h a v) x).prev = (h x).prev := by
  by_cases hx : x = a <;> simp [setFlags, hx]

@[simp] theorem cache_set_setFlags (h : Heap) (a v x : Nat) :
    ((setFlags h a v) x).cache_set = (h x).cache_set := by
  by_cases hx : x = a <;> simp [setFlags, hx]

@[simp] theorem time_setFlags (h : Heap) (a v x : Nat) :
    ((setFlags h a v) x).time_msrmt = (h x).time_msrmt := by
  by_cases hx : x = a <;> simp [setFlags, hx]

@[simp] theorem time_setTime (h : Heap) (a v x : Nat) :
    ((setTime h a v) x).time_msrmt = if x = a then v else (h x).time_msrmt := by
  by_cases hx : x = a <;> simp [setTime, hx]

@[simp] theorem next_setTime (h : Heap) (a v x : Nat) :
    ((setTime h a v) x).next = (h x).next := by
  by_cases hx : x = a <;> simp [setTime, hx]

@[simp] theorem prev_setTime (h : Heap) (a v x : Nat) :
    ((setTime h a v) x).prev = (h x).prev := by
  by_cases hx : x = a <;> simp [setTime, hx]

@[simp] theorem cache_set_setTime (h : Heap) (a v x : Nat) :
    ((setTime h a v) x).cache_set = (h x).cache_set := by
  by_cases hx : x = a <;> simp [setTime, hx]

@[simp] theorem flags_setTime (h : Heap) (a v x : Nat) :
    ((setTime h a v) x).flags = (h x).flags := by
  by_cases hx : x = a <;> simp [setTime, hx]

/-- a small physically indexed context fixture: 4 sets, 1 way. -/
def ctx_small : cache_ctx :=
  { cache_level := 1, addressing := 1, sets := 4, associativity := 1,
    access_time := 30, nr_of_cachelines := 4, set_size := 64,
    cache_size := 256 }

/-- a fixture state of the privileged physical builder in which set 1
already holds `associativity` (= 1) confirmed lines. -/
def st_c4 : PhysPrivState :=
  { h := heap0, cnt_lines_per_set := fun s => if s = 1 then 1 else 0,
    cl_ptr_arr := fun _ => 0, cl_ptr_idx := 0, cls_to_del := NULL }

/-- a context fixture with 4 sets and 2 ways. -/
def ctx32 : cache_ctx :=
  { cache_level := 1, addressing := 1, sets := 4, associativity := 2,
    access_time := 30, nr_of_cachelines := 8, set_size := 128,
    cache_size := 512 }

/-- a virtually indexed context fixture with 4 sets and 2 ways. -/
def ctx32v : cache_ctx :=
  { cache_level := 0, addressing := 0, sets := 4, associativity := 2,
    access_time := 4, nr_of_cachelines := 8, set_size := 128,
    cache_size := 512 }

/-- a timing-oracle fixture for has_collision on a three-line ring:
rotation 0 measures baseline 10 and test 50 (a clear collision
signal), rotations 1 and 2 measure 10 throughout (no signal). -/
def t_c3 : Nat → Nat := fun k =>
  if k < 100 then 10 else if k < 200 then 50 else 10

/-- specification vocabulary: the indices `i < k` whose line `arr i`
is tagged with cache set `s` in heap `h`, in increasing order. -/
def occ_idx (h : Heap) (arr : Nat → Nat) (k s : Nat) : List Nat :=
  (List.range k).filter (fun i => (h (arr i)).cache_set = s)

/-- specification vocabulary: the first position `j < len` with
`m j = v` (used to locate a value under a permutation). -/
def inv_at (m : Nat → Nat) (len v : Nat) : Nat :=
  (List.range len).findIdx (fun j => m j == v)

/-- specification vocabulary: the forward ring order built by
build_cache_ds from the sorted pointer array: position `p` holds the
line of the `p % associativity`-th ring slot (counted from the set's
FIRST line) of the `p / associativity`-th set in the randomised set
order. -/
def build_ord (ctx : cache_ctx) (g : Nat → Nat) (k0 : Nat)
    (sorted : Nat → Nat) (p : Nat) : Nat :=
  let s := gen_random_indices g
    (k0 + ctx.sets * (ctx.associativity - 1)) ctx.sets (p / ctx.associativity)
  let m := gen_random_indices g (k0 + s * (ctx.associativity - 1))
    ctx.associativity
  sorted (s * ctx.associativity
    + m ((inv_at m ctx.associativity 0 + p % ctx.associativity)
          % ctx.associativity))

instance decRingLinked (h : Heap) (ord : Nat → Nat) (n : Nat) :
    Decidable (ring_linked h ord n) := by
  unfold ring_linked; infer_instance

instance decRingNodup (ord : Nat → Nat) (n : Nat) :
    Decidable (ring_nodup ord n) := by
  unfold ring_nodup; infer_instance

theorem cacheline_ext {c1 c2 : Cacheline} (hn : c1.next = c2.next)
    (hp : c1.prev = c2.prev) (hs : c1.cache_set = c2.cache_set)
    (hf : c1.flags = c2.flags) (ht : c1.time_msrmt = c2.time_msrmt) :
    c1 = c2 := by
  cases c1; cases c2; simp_all

@[simp] theorem cache_set_cl_replace (h : Heap) (a b x : Nat) :
    ((cl_replace h a b) x).cache_set = (h x).cache_set := by
  simp [cl_replace]

@[simp] theorem flags_cl_replace (h : Heap) (a b x : Nat) :
    ((cl_replace h a b) x).flags = (h x).flags := by
  simp [cl_replace]

@[simp] theorem time_cl_replace (h : Heap) (a b x : Nat) :
    ((cl_replace h a b) x).time_msrmt = (h x).time_msrmt := by
  simp [cl_replace]

theorem cl_replace_normal (h : Heap) (a b : Nat)
    (hn : (h b).next ≠ b) (hp : (h b).prev ≠ b) (hab : a ≠ b) :
    cl_replace h a b =
      setPrev (setNext (setNext (setPrev h ((h b).next) a) ((h b).prev) a)
        a ((h b).next)) a ((h b).prev) := by
  have hn' : b ≠ (h b).next := Ne.symm hn
  have hp' : b ≠ (h b).prev := Ne.symm hp
  have hab' : b ≠ a := Ne.symm hab
  simp [cl_replace, hn', hp', hab']

theorem prime_loop_eq_head (h : Heap) (head : Nat) :
    ∀ fuel curr x, prime_loop h head curr fuel = some x → x = head := by
  intro fuel
  induction fuel with
  | zero => intro curr x hx; simp [prime_loop] at hx
  | succ n ih =>
      intro curr x hx
      simp only [prime_loop] at hx
      split at hx
      · next hcond => exact (Option.some.inj hx) ▸ hcond
      · exact ih _ _ hx

theorem prime_rev_loop_eq_head (h : Heap) (head : Nat) :
    ∀ fuel curr x, prime_rev_loop h head curr fuel = some x → x = head := by
  intro fuel
  induction fuel with
  | zero => intro curr x hx; simp [prime_rev_loop] at hx
  | succ n ih =>
      intro curr x hx
      simp only [prime_rev_loop] at hx
      split at hx
      · next hcond => exact (Option.some.inj hx) ▸ hcond
      · exact ih _ _ hx

theorem prime_loop_ring (h : Heap) (ord : Nat → Nat) (n : Nat)
    (hring : ring_linked h ord n) :
    ∀ fuel q, q < n → n ≤ q + fuel →
      prime_loop h (ord 0) (ord q) fuel = some (ord 0) := by
  intro fuel
  induction fuel with
  | zero => intro q hq hf; omega
  | succ f ih =>
      intro q hq hf
      simp only [prime_loop]
      rw [(hring q hq).1]
      by_cases hstop : ord ((q + 1) % n) = ord 0
      · simp [hstop]
      · rw [if_neg hstop]
        have hq1 : q + 1 < n := by
          rcases Nat.lt_or_ge (q + 1) n with h1 | h1
          · exact h1
          · have : q + 1 = n := by omega
            rw [this, Nat.mod_self] at hstop
            exact absurd rfl hstop
        have : (q + 1) % n = q + 1 := Nat.mod_eq_of_lt hq1
        rw [this]
        exact ih (q + 1) hq1 (by omega)

theorem prime_rev_loop_ring (h : Heap) (ord : Nat → Nat) (n : Nat)
    (hring : ring_linked h ord n) :
    ∀ fuel q, q < n → (q = 0 → n ≤ fuel) → (1 ≤ q → q ≤ fuel) →
      prime_rev_loop h (ord 0) (ord q) fuel = some (ord 0) := by
  intro fuel
  induction fuel with
  | zero => intro q hq h0 h1; omega
  | succ f ih =>
      intro q hq h0 h1
      simp only [prime_rev_loop]
      rw [(hring q hq).2]
      by_cases hstop : ord ((q + (n - 1)) % n) = ord 0
      · simp [hstop]
      · rw [if_neg hstop]
        rcases Nat.eq_zero_or_pos q with rfl | hqpos
        · -- q = 0: the step goes to position n - 1
          have hn2 : 2 ≤ n := by
            rcases Nat.lt_or_ge n 2 with hlt | hge
            · exfalso
              have hn1 : n = 1 := by omega
              apply hstop
              simp [hn1]
            · exact hge
          have : (0 + (n - 1)) % n = n - 1 := by
            rw [Nat.zero_add, Nat.mod_eq_of_lt (by omega)]
          rw [this]
          exact ih (n - 1) (by omega) (by omega) (by omega)
        · -- q ≥ 1: the step goes to position q - 1
          have hq1 : q ≠ 1 := by
            intro h
            apply hstop
            have : (q + (n - 1)) % n = 0 := by
              rw [h]
              have : 1 + (n - 1) = n := by omega
              rw [this, Nat.mod_self]
            rw [this]
          have hmod : (q + (n - 1)) % n = q - 1 := by
            have h2n : q + (n - 1) < 2 * n := by omega
            have hge : n ≤ q + (n - 1) := by omega
            have : q + (n - 1) - n = q - 1 := by omega
            rw [Nat.mod_eq_sub_mod hge, Nat.mod_eq_of_lt (by omega), this]
          rw [hmod]
          exact ih (q - 1) (by omega) (by omega) (by omega)

/-- C1: on every terminating run, `prime(entry)` — a forward walk of
the `next` pointers back to `entry` — returns `entry.prev`, and
`prime_rev(entry)` — a backward walk of the `prev` pointers back to
`entry` — also returns `entry.prev` (the C statement
`return curr_cl->prev` with `curr_cl == head`), not `entry.next` as
the spec claims; on a linked ring of period `n`, both terminate with
fuel `n`. -/
theorem C1_prime_prime_rev_return_prev :
    (∀ (h : Heap) (entry fuel r : Nat),
      prime h entry fuel = some r → r = (h entry).prev) ∧
    (∀ (h : Heap) (entry fuel r : Nat),
      prime_rev h entry fuel = some r → r = (h entry).prev) ∧
    (∀ (h : Heap) (ord : Nat → Nat) (n : Nat), ring_linked h ord n → 0 < n →
      prime h (ord 0) n = some ((h (ord 0)).prev) ∧
      prime_rev h (ord 0) n = some ((h (ord 0)).prev)) := by
  refine ⟨?_, ?_, ?_⟩
  · intro h entry fuel r hr
    simp only [prime, Option.map_eq_some'] at hr
    obtain ⟨c, hc, hrc⟩ := hr
    rw [prime_loop_eq_head h entry fuel entry c hc] at hrc
    exact hrc.symm
  · intro h entry fuel r hr
    simp only [prime_rev, Option.map_eq_some'] at hr
    obtain ⟨c, hc, hrc⟩ := hr
    rw [prime_rev_loop_eq_head h entry fuel entry c hc] at hrc
    exact hrc.symm
  · intro h ord n hring hn
    constructor
    · unfold prime
      rw [prime_loop_ring h ord n hring n 0 hn (by omega)]
      rfl
    · unfold prime_rev
      rw [prime_rev_loop_ring h ord n hring n 0 hn (fun _ => le_refl n) (by omega)]
      rfl

/-- C1 witness: on the concrete three-element ring, both primitives
terminate and return the entry's predecessor. -/
theorem C1_witness :
    ((∀ (h : Heap) (entry fuel r : Nat),
        prime h entry fuel = some r → r = (h entry).prev) ∧
      (∀ (h : Heap) (entry fuel r : Nat),
        prime_rev h entry fuel = some r → r = (h entry).prev) ∧
      (∀ (h : Heap) (ord : Nat → Nat) (n : Nat), ring_linked h ord n → 0 < n →
        prime h (ord 0) n = some ((h (ord 0)).prev) ∧
        prime_rev h (ord 0) n = some ((h (ord 0)).prev))) ∧
    ring_linked heap3 ord3 3 ∧
    prime heap3 (ord3 0) 3 = some ((heap3 (ord3 0)).prev) := by
  refine ⟨C1_prime_prime_rev_return_prev, ?hr, ?hp⟩
  case hr => decide
  case hp =>
    exact (C1_prime_prime_rev_return_prev.2.2 heap3 ord3 3 (by decide) (by decide)).1

/-- C1 counterexample: on the concrete three-element ring, `prime_rev`
terminates but does not return `entry.next`; it returns `entry.prev`. -/
theorem C1_counterexample :
    (prime_rev heap3 10 3).isSome = true ∧
    prime_rev heap3 10 3 ≠ some ((heap3 10).next) ∧
    prime_rev heap3 10 3 = some ((heap3 10).prev) := by
  decide

/-- C7: `cl_insert(anchor, new)` with a null anchor makes `new` a
singleton ring; with a non-null anchor (and `new` distinct from the
anchor and its successor, as for a fresh line) it splices `new`
between the anchor and the anchor's former successor. -/
theorem C7_cl_insert_splice (h : Heap) (anchor new_cl : Nat) :
    (anchor = NULL →
      ((cl_insert h anchor new_cl) new_cl).next = new_cl ∧
      ((cl_insert h anchor new_cl) new_cl).prev = new_cl) ∧
    (anchor ≠ NULL → new_cl ≠ anchor → new_cl ≠ (h anchor).next →
      ((cl_insert h anchor new_cl) anchor).next = new_cl ∧
      ((cl_insert h anchor new_cl) new_cl).prev = anchor ∧
      ((cl_insert h anchor new_cl) new_cl).next = (h anchor).next ∧
      ((cl_insert h anchor new_cl) ((h anchor).next)).prev = new_cl) := by
  constructor
  · intro h0
    simp [cl_insert, h0]
  · intro h0 hna hnn
    have hna' : anchor ≠ new_cl := Ne.symm hna
    have hnn' : (h anchor).next ≠ new_cl := Ne.symm hnn
    simp [cl_insert, h0, hna, hna', hnn, hnn']

/-- C7 witness: concrete instances of both branches of the splice. -/
theorem C7_witness :
    ((cl_insert heap0 NULL 7) 7).next = 7 ∧
    ((cl_insert heap0 NULL 7) 7).prev = 7 ∧
    (((cl_insert heap3 10 7) 10).next = 7 ∧
      ((cl_insert heap3 10 7) 7).prev = 10 ∧
      ((cl_insert heap3 10 7) 7).next = (heap3 10).next ∧
      ((cl_insert heap3 10 7) ((heap3 10).next)).prev = 7) := by
  refine ⟨((C7_cl_insert_splice heap0 NULL 7).1 rfl).1,
          ((C7_cl_insert_splice heap0 NULL 7).1 rfl).2,
          (C7_cl_insert_splice heap3 10 7).2 (by decide) (by decide) (by decide)⟩

/-- C8: `cl_replace(new, old)` points `old`'s former neighbours at
`new`, copies `old`'s links into `new`, leaves `old`'s own link fields
unchanged, and a second `cl_replace(old, new)` restores the original
heap at every address other than `new`.  The hypotheses say that `old`
sits in a ring of length at least 2 and that `new` is an outside
line. -/
theorem C8_cl_replace_swap (h : Heap) (new_cl old_cl : Nat)
    (hn : (h old_cl).next ≠ old_cl) (hp : (h old_cl).prev ≠ old_cl)
    (hno : new_cl ≠ old_cl) (hnn : new_cl ≠ (h old_cl).next)
    (hnp : new_cl ≠ (h old_cl).prev)
    (hr1 : (h ((h old_cl).next)).prev = old_cl)
    (hr2 : (h ((h old_cl).prev)).next = old_cl) :
    ((cl_replace h new_cl old_cl) ((h old_cl).prev)).next = new_cl ∧
    ((cl_replace h new_cl old_cl) ((h old_cl).next)).prev = new_cl ∧
    ((cl_replace h new_cl old_cl) new_cl).next = (h old_cl).next ∧
    ((cl_replace h new_cl old_cl) new_cl).prev = (h old_cl).prev ∧
    ((cl_replace h new_cl old_cl) old_cl).next = (h old_cl).next ∧
    ((cl_replace h new_cl old_cl) old_cl).prev = (h old_cl).prev ∧
    (∀ x, x ≠ new_cl →
      (cl_replace (cl_replace h new_cl old_cl) old_cl new_cl) x = h x) := by
  have hn' : old_cl ≠ (h old_cl).next := Ne.symm hn
  have hp' : old_cl ≠ (h old_cl).prev := Ne.symm hp
  have hno' : old_cl ≠ new_cl := Ne.symm hno
  have hnn' : (h old_cl).next ≠ new_cl := Ne.symm hnn
  have hnp' : (h old_cl).prev ≠ new_cl := Ne.symm hnp
  have e1 : cl_replace h new_cl old_cl =
      setPrev (setNext (setNext (setPrev h ((h old_cl).next) new_cl)
        ((h old_cl).prev) new_cl) new_cl ((h old_cl).next)) new_cl
        ((h old_cl).prev) :=
    cl_replace_normal h new_cl old_cl hn hp hno
  have f1 : ((cl_replace h new_cl old_cl) ((h old_cl).prev)).next = new_cl := by
    rw [e1]; simp [hnp']
  have f2 : ((cl_replace h new_cl old_cl) ((h old_cl).next)).prev = new_cl := by
    rw [e1]; simp [hnn']
  have f3 : ((cl_replace h new_cl old_cl) new_cl).next = (h old_cl).next := by
    rw [e1]; simp
  have f4 : ((cl_replace h new_cl old_cl) new_cl).prev = (h old_cl).prev := by
    rw [e1]; simp
  have f5 : ((cl_replace h new_cl old_cl) old_cl).next = (h old_cl).next := by
    rw [e1]; simp [hno', hp']
  have f6 : ((cl_replace h new_cl old_cl) old_cl).prev = (h old_cl).prev := by
    rw [e1]; simp [hno', hn']
  refine ⟨f1, f2, f3, f4, f5, f6, ?_⟩
  intro x hx
  have hrn : ((cl_replace h new_cl old_cl) new_cl).next ≠ new_cl := by
    rw [f3]; exact hnn'
  have hrp : ((cl_replace h new_cl old_cl) new_cl).prev ≠ new_cl := by
    rw [f4]; exact hnp'
  have e2 : cl_replace (cl_replace h new_cl old_cl) old_cl new_cl =
      setPrev (setNext (setNext (setPrev (cl_replace h new_cl old_cl)
        ((cl_replace h new_cl old_cl) new_cl).next old_cl)
        ((cl_replace h new_cl old_cl) new_cl).prev old_cl) old_cl
        ((cl_replace h new_cl old_cl) new_cl).next) old_cl
        ((cl_replace h new_cl old_cl) new_cl).prev :=
    cl_replace_normal (cl_replace h new_cl old_cl) old_cl new_cl hrn hrp hno'
  rw [e2, f3, f4]
  apply cacheline_ext
  · -- next field
    simp only [next_setPrev, next_setNext]
    by_cases hxo : x = old_cl
    · subst hxo
      simp
    · rw [if_neg hxo]
      by_cases hxp : x = (h old_cl).prev
      · subst hxp
        rw [if_pos rfl, hr2]
      · rw [if_neg hxp, e1]
        simp only [next_setPrev, next_setNext]
        rw [if_neg hx, if_neg hxp]
  · -- prev field
    simp only [prev_setPrev, prev_setNext]
    by_cases hxo : x = old_cl
    · subst hxo
      simp
    · rw [if_neg hxo]
      by_cases hxn : x = (h old_cl).next
      · subst hxn
        rw [if_pos rfl, hr1]
      · rw [if_neg hxn, e1]
        simp only [prev_setPrev, prev_setNext]
        rw [if_neg hx, if_neg hxn]
  · simp
  · simp
  · simp

/-- C8 witness: the replace/restore behaviour on the concrete
three-element ring with the outside line 7 replacing line 11. -/
theorem C8_witness :
    ((cl_replace heap3 7 11) ((heap3 11).prev)).next = 7 ∧
    ((cl_replace heap3 7 11) ((heap3 11).next)).prev = 7 ∧
    ((cl_replace heap3 7 11) 7).next = (heap3 11).next ∧
    ((cl_replace heap3 7 11) 7).prev = (heap3 11).prev ∧
    ((cl_replace heap3 7 11) 11).next = (heap3 11).next ∧
    ((cl_replace heap3 7 11) 11).prev = (heap3 11).prev ∧
    (∀ x, x ≠ 7 → (cl_replace (cl_replace heap3 7 11) 11 7) x = heap3 x) :=
  C8_cl_replace_swap heap3 7 11 (by decide) (by decide) (by decide) (by decide)
    (by decide) (by decide) (by decide)

/-- C9: `get_cache_ctx` fills the configured geometry and the derived
fields for `L1` and `L2` and returns a null pointer — not a fatal
abort — for every other cache level, as its own comment ("Returns null
for unsupported or unknown cache level") documents. -/
theorem C9_get_cache_ctx_geometry :
    (∃ ctx, get_cache_ctx L1 = some ctx ∧
      ctx.addressing = L1_ADDRESSING ∧ ctx.sets = L1_SETS ∧
      ctx.associativity = L1_ASSOCIATIVITY ∧
      ctx.access_time = L1_ACCESS_TIME ∧
      ctx.nr_of_cachelines = ctx.sets * ctx.associativity ∧
      ctx.set_size = CACHELINE_SIZE * ctx.associativity ∧
      ctx.cache_size = ctx.sets * ctx.set_size) ∧
    (∃ ctx, get_cache_ctx L2 = some ctx ∧
      ctx.addressing = L2_ADDRESSING ∧ ctx.sets = L2_SETS ∧
      ctx.associativity = L2_ASSOCIATIVITY ∧
      ctx.access_time = L2_ACCESS_TIME ∧
      ctx.nr_of_cachelines = ctx.sets * ctx.associativity ∧
      ctx.set_size = CACHELINE_SIZE * ctx.associativity ∧
      ctx.cache_size = ctx.sets * ctx.set_size) ∧
    (∀ lvl : cache_level, lvl ≠ L1 → lvl ≠ L2 →
      get_cache_ctx lvl = none) := by
  refine ⟨⟨_, rfl, rfl, rfl, rfl, rfl, rfl, rfl, rfl⟩,
          ⟨_, rfl, rfl, rfl, rfl, rfl, rfl, rfl, rfl⟩, ?_⟩
  intro lvl h1 h2
  simp [get_cache_ctx, h1, h2]

/-- C9 witness: the unknown-level conjunct of the theorem evaluated at
the concrete level 5, and the configured geometry recomputed at the
device_conf.h values (L1: 64 sets, 8 ways, time 4; L2: 512 sets,
8 ways, time 12). -/
theorem C9_witness :
    get_cache_ctx 5 = none ∧
    get_cache_ctx L2
      = some { cache_level := L2, addressing := 1, sets := 512,
               associativity := 8, access_time := 12,
               nr_of_cachelines := 4096, set_size := 512,
               cache_size := 262144 } :=
  ⟨(C9_get_cache_ctx_geometry).2.2 5 (by decide) (by decide), by decide⟩

/-- C9 counterexample: with an unknown cache level the constructor
returns (value: a null pointer); there is no fatal abort on this path
in the code. -/
theorem C9_counterexample : get_cache_ctx 2 = none := by
  decide

/-- C10: releasing a null cache data structure returns immediately:
nothing is freed and no state is modified, for every context. -/
theorem C10_release_null (ctx : cache_ctx) (h : Heap)
    (fuel : Nat) : release_cache_ds ctx h NULL fuel = some [] := by
  simp [release_cache_ds]

/-- C5: `get_phys_addr` reads the pagemap entry at byte offset
`8 * (vaddr / page_size)`; it fails (without writing the result)
exactly when the read fails or the entry's 54-bit frame number is
zero, and otherwise succeeds with `pfn * page_size + vaddr % page_size`
— the parsed present bit (bit 63) plays no role in the outcome. -/
theorem C5_get_phys_addr_spec (pread : Nat → Option Nat)
    (page_size vaddr : Nat) :
    (pread ((vaddr / page_size) * 8) = none →
      get_phys_addr pread page_size vaddr = none) ∧
    (∀ d, pread ((vaddr / page_size) * 8) = some d →
      (pagemap_get_entry pread page_size vaddr).map PagemapEntry.present
        = some ((d >>> 63) &&& 1) ∧
      (d &&& (2 ^ 54 - 1) = 0 →
        get_phys_addr pread page_size vaddr = none) ∧
      (d &&& (2 ^ 54 - 1) ≠ 0 →
        get_phys_addr pread page_size vaddr =
          some ((d &&& (2 ^ 54 - 1)) * page_size + vaddr % page_size))) := by
  constructor
  · intro h0
    simp [get_phys_addr, pagemap_get_entry, h0]
  · intro d hd
    have hmask : (2 : Nat) ^ 54 - 1 = 18014398509481983 := by norm_num
    refine ⟨?_, ?_, ?_⟩
    · simp [pagemap_get_entry, hd]
    · intro h0
      rw [hmask] at h0
      simp [get_phys_addr, pagemap_get_entry, hd, h0]
    · intro h0
      rw [hmask] at h0
      simp [get_phys_addr, pagemap_get_entry, hd, h0]

/-- C5 witness: a concrete successful translation (pfn 37, page size
4096, offset 3 inside the page). -/
theorem C5_witness :
    get_phys_addr (fun _ => some 37) 4096 8195 =
      some ((37 &&& (2 ^ 54 - 1)) * 4096 + 8195 % 4096) :=
  ((C5_get_phys_addr_spec (fun _ => some 37) 4096 8195).2 37 rfl).2.2 (by decide)

/-- C5 counterexample: an entry whose present bit (bit 63) is clear but
whose pfn field is nonzero is happily translated — the present bit is
parsed but never validated. -/
theorem C5_counterexample :
    (pagemap_get_entry (fun _ => some 3) 4096 0).map PagemapEntry.present
      = some 0 ∧
    get_phys_addr (fun _ => some 3) 4096 0 = some 12288 := by
  constructor
  · decide
  · decide

theorem swap_eq_comp (arr : Nat → Nat) (i j : Nat) :
    swap arr i j = fun x => arr ((Equiv.swap i j) x) := by
  funext x
  by_cases hxj : x = j
  · subst hxj
    simp [swap, Equiv.swap_apply_right]
  · by_cases hxi : x = i
    · subst hxi
      simp [swap, hxj, Equiv.swap_apply_left]
    · simp [swap, hxi, hxj, Equiv.swap_apply_of_ne_of_ne hxi hxj]

theorem random_perm_loop_factor (g : Nat → Nat) :
    ∀ (i k0 : Nat) (arr : Nat → Nat), ∃ σ : Equiv.Perm ℕ,
      (∀ x, random_perm_loop g k0 i arr x = arr (σ x)) ∧
      (∀ x, i < x → σ x = x) ∧ (∀ x, x ≤ i → σ x ≤ i) := by
  intro i
  induction i with
  | zero =>
      intro k0 arr
      exact ⟨Equiv.refl ℕ, fun x => rfl, fun x _ => rfl, fun x hx => hx⟩
  | succ i ih =>
      intro k0 arr
      have hj : g k0 % (i + 1) ≤ i := by
        have := Nat.mod_lt (g k0) (show 0 < i + 1 by omega)
        omega
      obtain ⟨σ', h1, h2, h3⟩ := ih (k0 + 1) (swap arr (i + 1) (g k0 % (i + 1)))
      refine ⟨σ'.trans (Equiv.swap (i + 1) (g k0 % (i + 1))), ?_, ?_, ?_⟩
      · intro x
        have hstep : random_perm_loop g k0 (i + 1) arr x
            = random_perm_loop g (k0 + 1) i (swap arr (i + 1) (g k0 % (i + 1))) x := rfl
        rw [hstep, h1 x, swap_eq_comp]
        simp [Equiv.trans_apply]
      · intro x hx
        have hσ : σ' x = x := h2 x (by omega)
        simp only [Equiv.trans_apply, hσ]
        exact Equiv.swap_apply_of_ne_of_ne (by omega) (by omega)
      · intro x hx
        by_cases hxi : x ≤ i
        · have hb := h3 x hxi
          simp only [Equiv.trans_apply]
          rcases eq_or_ne (σ' x) (g k0 % (i + 1)) with hh | hh
          · rw [hh, Equiv.swap_apply_right]
          · rw [Equiv.swap_apply_of_ne_of_ne (by omega) hh]
            omega
        · have hx1 : x = i + 1 := by omega
          subst hx1
          have hσ : σ' (i + 1) = i + 1 := h2 _ (by omega)
          simp only [Equiv.trans_apply, hσ, Equiv.swap_apply_left]
          omega

theorem random_perm_factor (g : Nat → Nat) (k0 n : Nat) (arr : Nat → Nat) :
    ∃ σ : Equiv.Perm ℕ,
      (∀ x, random_perm g k0 arr n x = arr (σ x)) ∧
      (∀ x, n - 1 < x → σ x = x) ∧ (∀ x, x ≤ n - 1 → σ x ≤ n - 1) :=
  random_perm_loop_factor g (n - 1) k0 arr

theorem gen_random_indices_lt (g : Nat → Nat) (k0 n i : Nat) (hi : i < n) :
    gen_random_indices g k0 n i < n := by
  obtain ⟨σ, h1, h2, h3⟩ := random_perm_factor g k0 n (fun x => x)
  have := h3 i (by omega)
  have hout : gen_random_indices g k0 n i = σ i := h1 i
  omega

theorem gen_random_indices_inj (g : Nat → Nat) (k0 n i j : Nat)
    (hij : gen_random_indices g k0 n i = gen_random_indices g k0 n j) :
    i = j := by
  obtain ⟨σ, h1, h2, h3⟩ := random_perm_factor g k0 n (fun x => x)
  have hi : gen_random_indices g k0 n i = σ i := h1 i
  have hj : gen_random_indices g k0 n j = σ j := h1 j
  exact σ.injective (by rw [← hi, ← hj, hij])

theorem gen_random_indices_surj (g : Nat → Nat) (k0 n m : Nat) (hm : m < n) :
    ∃ i, i < n ∧ gen_random_indices g k0 n i = m := by
  obtain ⟨σ, h1, h2, h3⟩ := random_perm_factor g k0 n (fun x => x)
  refine ⟨σ.symm m, ?_, ?_⟩
  · by_contra hge
    have hge' : n - 1 < σ.symm m := by omega
    have := h2 _ hge'
    have hm' : σ (σ.symm m) = m := σ.apply_symm_apply m
    omega
  · have hv : gen_random_indices g k0 n (σ.symm m) = σ (σ.symm m) :=
      h1 (σ.symm m)
    rw [hv, σ.apply_symm_apply]

theorem random_perm_rearranges (g : Nat → Nat) (k0 n : Nat) (arr : Nat → Nat) :
    ((List.range n).map (random_perm g k0 arr n)).Perm
      ((List.range n).map arr) := by
  obtain ⟨σ, h1, h2, h3⟩ := random_perm_factor g k0 n arr
  have he : (List.range n).map (random_perm g k0 arr n)
      = ((List.range n).map (fun i => σ i)).map arr := by
    rw [List.map_map]
    exact List.map_congr_left (fun a _ => h1 a)
  rw [he]
  refine List.Perm.map arr ?_
  have hnd : ((List.range n).map (fun i => σ i)).Nodup :=
    (List.nodup_range n).map σ.injective
  rw [List.perm_ext_iff_of_nodup hnd (List.nodup_range n)]
  intro a
  simp only [List.mem_map, List.mem_range]
  constructor
  · rintro ⟨i, hi, rfl⟩
    have := h3 i (by omega)
    omega
  · intro ha
    refine ⟨σ.symm a, ?_, σ.apply_symm_apply a⟩
    by_contra hge
    have := h2 (σ.symm a) (by omega)
    have hm' : σ (σ.symm a) = a := σ.apply_symm_apply a
    omega

/-- C6: `random_perm` swaps positions `i` and `rand() % i` for
`i = arr_len - 1, …, 1` (the swap index is always below `i`, the
off-by-one against textbook Fisher–Yates); its output is a
rearrangement of the input array, and `gen_random_indices` therefore
yields a permutation of `0, …, n - 1` (values below `n`, injective and
surjective on that range). -/
theorem C6_random_perm_rearranges :
    (∀ (g : Nat → Nat) (k0 i : Nat) (arr : Nat → Nat),
      random_perm_loop g k0 (i + 1) arr
        = random_perm_loop g (k0 + 1) i (swap arr (i + 1) (g k0 % (i + 1))) ∧
      g k0 % (i + 1) < i + 1) ∧
    (∀ (g : Nat → Nat) (k0 n : Nat) (arr : Nat → Nat), 1 ≤ n →
      ((List.range n).map (random_perm g k0 arr n)).Perm
        ((List.range n).map arr)) ∧
    (∀ (g : Nat → Nat) (k0 n i : Nat), i < n →
      gen_random_indices g k0 n i < n) ∧
    (∀ (g : Nat → Nat) (k0 n i j : Nat),
      gen_random_indices g k0 n i = gen_random_indices g k0 n j → i = j) ∧
    (∀ (g : Nat → Nat) (k0 n m : Nat), m < n →
      ∃ i, i < n ∧ gen_random_indices g k0 n i = m) := by
  refine ⟨?_, ?_, ?_, ?_, ?_⟩
  · intro g k0 i arr
    exact ⟨rfl, Nat.mod_lt _ (Nat.succ_pos i)⟩
  · intro g k0 n arr _
    exact random_perm_rearranges g k0 n arr
  · intro g k0 n i hi
    exact gen_random_indices_lt g k0 n i hi
  · intro g k0 n i j hij
    exact gen_random_indices_inj g k0 n i j hij
  · intro g k0 n m hm
    exact gen_random_indices_surj g k0 n m hm

/-- C6 witness: the permutation properties at a concrete PRNG stream
and length. -/
theorem C6_witness :
    ((List.range 4).map (random_perm (fun k => 5 * k + 3) 0 (fun x => 10 * x) 4)).Perm
      ((List.range 4).map (fun x => 10 * x)) ∧
    gen_random_indices (fun k => 5 * k + 3) 0 4 2 < 4 ∧
    (∃ i, i < 4 ∧ gen_random_indices (fun k => 5 * k + 3) 0 4 i = 3) := by
  refine ⟨C6_random_perm_rearranges.2.1 _ 0 4 _ (by decide),
          C6_random_perm_rearranges.2.2.1 _ 0 4 2 (by decide),
          C6_random_perm_rearranges.2.2.2.2 _ 0 4 3 (by decide)⟩

theorem phys_priv_accept_fold (ctx : cache_ctx) (phys : Nat → Nat)
    (page : Nat) (s0 : PhysPrivState) :
    ∀ k,
      ((List.range k).foldl (phys_priv_accept_step ctx phys page) s0).cl_ptr_idx
        = s0.cl_ptr_idx + k ∧
      (∀ s, ((List.range k).foldl (phys_priv_accept_step ctx phys page) s0).cnt_lines_per_set s
        = s0.cnt_lines_per_set s +
          (List.range k).countP
            (fun i => get_phys_cache_set ctx phys (page + CACHELINE_SIZE * i) = s)) ∧
      (∀ i, i < k →
        ((List.range k).foldl (phys_priv_accept_step ctx phys page) s0).cl_ptr_arr
          (s0.cl_ptr_idx + i) = page + CACHELINE_SIZE * i) ∧
      (∀ x, x < s0.cl_ptr_idx →
        ((List.range k).foldl (phys_priv_accept_step ctx phys page) s0).cl_ptr_arr x
          = s0.cl_ptr_arr x) ∧
      (∀ i, i < k →
        (((List.range k).foldl (phys_priv_accept_step ctx phys page) s0).h
          (page + CACHELINE_SIZE * i)).cache_set
          = get_phys_cache_set ctx phys (page + CACHELINE_SIZE * i)) ∧
      (∀ a, (∀ i, i < k → a ≠ page + CACHELINE_SIZE * i) →
        ((List.range k).foldl (phys_priv_accept_step ctx phys page) s0).h a
          = s0.h a) ∧
      ((List.range k).foldl (phys_priv_accept_step ctx phys page) s0).cls_to_del
        = s0.cls_to_del := by
  intro k
  induction k with
  | zero => simp
  | succ k ih =>
      obtain ⟨hidx, hcnt, harr, harr0, hset, hfr, hdel⟩ := ih
      rw [List.range_succ, List.foldl_append]
      set sk := (List.range k).foldl (phys_priv_accept_step ctx phys page) s0
        with hsk
      refine ⟨?_, ?_, ?_, ?_, ?_, ?_, ?_⟩
      · simp [phys_priv_accept_step, List.foldl_cons, hidx]
        omega
      · intro s
        simp only [List.foldl_cons, List.foldl_nil, phys_priv_accept_step]
        rw [List.countP_append]
        by_cases hs : get_phys_cache_set ctx phys (page + CACHELINE_SIZE * k) = s
        · simp [hs, hcnt s]
          omega
        · simp [hs, Ne.symm hs, hcnt s]
      · intro i hi
        simp only [List.foldl_cons, List.foldl_nil, phys_priv_accept_step]
        rcases Nat.lt_or_ge i k with hik | hik
        · have hne : s0.cl_ptr_idx + i ≠ sk.cl_ptr_idx := by
            rw [hidx]; omega
          simp only [hne, if_neg hne]
          exact harr i hik
        · have hik' : i = k := by omega
          subst hik'
          have heq : s0.cl_ptr_idx + i = sk.cl_ptr_idx := by rw [hidx]
          simp [heq]
      · intro x hx
        simp only [List.foldl_cons, List.foldl_nil, phys_priv_accept_step]
        have hne : x ≠ sk.cl_ptr_idx := by rw [hidx]; omega
        simp only [if_neg hne]
        exact harr0 x hx
      · intro i hi
        simp only [List.foldl_cons, List.foldl_nil, phys_priv_accept_step]
        rcases Nat.lt_or_ge i k with hik | hik
        · have hne : page + CACHELINE_SIZE * i ≠ page + CACHELINE_SIZE * k := by
            simp [CACHELINE_SIZE]; omega
          simp only [cache_set_setSet, if_neg hne]
          exact hset i hik
        · have hik' : i = k := by omega
          subst hik'
          simp
      · intro a ha
        simp only [List.foldl_cons, List.foldl_nil, phys_priv_accept_step]
        have hfr' : ∀ i, i < k → a ≠ page + CACHELINE_SIZE * i :=
          fun i hik => ha i (by omega)
        have hne : a ≠ page + CACHELINE_SIZE * k := ha k (by omega)
        simp only [setSet, if_neg hne]
        exact hfr a hfr'
      · simp [phys_priv_accept_step, List.foldl_cons, hdel]

/-- C4: one page step of the privileged physically indexed builder.
The page is rejected — queued on the deferred-release list, with the
counters, the pointer array and its fill index untouched — exactly when
the set of its FIRST line slot has already reached `associativity`;
otherwise ALL `CACHE_GROUP_SIZE` lines of the page are accepted, each
tagged with its physical set and appended to the array, and each set's
counter grows by the number of slots mapping to it (one per slot when
the slot sets are distinct) — the other slots' sets are never
checked. -/
theorem C4_phys_priv_page_step (ctx : cache_ctx)
    (phys : Nat → Nat) (st : PhysPrivState) (page : Nat) :
    (ctx.associativity ≤ st.cnt_lines_per_set (get_phys_cache_set ctx phys page) →
      (allocate_cache_ds_phys_priv_step ctx phys st page).cnt_lines_per_set
          = st.cnt_lines_per_set ∧
      (allocate_cache_ds_phys_priv_step ctx phys st page).cl_ptr_idx
          = st.cl_ptr_idx ∧
      (allocate_cache_ds_phys_priv_step ctx phys st page).cl_ptr_arr
          = st.cl_ptr_arr ∧
      (allocate_cache_ds_phys_priv_step ctx phys st page).cls_to_del = page ∧
      ((allocate_cache_ds_phys_priv_step ctx phys st page).h page).prev
          = st.cls_to_del) ∧
    (st.cnt_lines_per_set (get_phys_cache_set ctx phys page) < ctx.associativity →
      (allocate_cache_ds_phys_priv_step ctx phys st page).cl_ptr_idx
          = st.cl_ptr_idx + CACHE_GROUP_SIZE ∧
      (∀ s, (allocate_cache_ds_phys_priv_step ctx phys st page).cnt_lines_per_set s
          = st.cnt_lines_per_set s +
            (List.range CACHE_GROUP_SIZE).countP
              (fun i => get_phys_cache_set ctx phys (page + CACHELINE_SIZE * i) = s)) ∧
      (∀ i, i < CACHE_GROUP_SIZE →
        (allocate_cache_ds_phys_priv_step ctx phys st page).cl_ptr_arr
          (st.cl_ptr_idx + i) = page + CACHELINE_SIZE * i) ∧
      (∀ i, i < CACHE_GROUP_SIZE →
        ((allocate_cache_ds_phys_priv_step ctx phys st page).h
          (page + CACHELINE_SIZE * i)).cache_set
          = get_phys_cache_set ctx phys (page + CACHELINE_SIZE * i)) ∧
      (allocate_cache_ds_phys_priv_step ctx phys st page).cls_to_del
          = st.cls_to_del) := by
  constructor
  · intro hge
    have hcond : ¬ (st.cnt_lines_per_set (get_phys_cache_set ctx phys page)
        < ctx.associativity) := by omega
    refine ⟨?_, ?_, ?_, ?_, ?_⟩ <;>
      simp [allocate_cache_ds_phys_priv_step, hcond]
  · intro hlt
    have hf := phys_priv_accept_fold ctx phys page
      { st with h := memset_page st.h page } CACHE_GROUP_SIZE
    obtain ⟨hidx, hcnt, harr, _, hset, _, hdel⟩ := hf
    have hstep : allocate_cache_ds_phys_priv_step ctx phys st page
        = (List.range CACHE_GROUP_SIZE).foldl
            (phys_priv_accept_step ctx phys page)
            { st with h := memset_page st.h page } := by
      simp [allocate_cache_ds_phys_priv_step, hlt]
    rw [hstep]
    exact ⟨hidx, hcnt, harr, hset, hdel⟩

/-- C4 witness: a concrete accepted page (all slot sets empty) and a
concrete rejected page, at the configured 4096-byte pages (64 line
slots per page). -/
theorem C4_witness :
    ((allocate_cache_ds_phys_priv_step ctx_small (fun a => a)
        { st_c4 with cnt_lines_per_set := fun _ => 0 } 0).cl_ptr_idx
      = 0 + CACHE_GROUP_SIZE) ∧
    ((allocate_cache_ds_phys_priv_step ctx_small (fun a => a)
        { st_c4 with cnt_lines_per_set := fun _ => 1 } 0).cl_ptr_idx = 0) := by
  constructor
  · exact ((C4_phys_priv_page_step ctx_small (fun a => a)
      { st_c4 with cnt_lines_per_set := fun _ => 0 } 0).2 (by decide)).1
  · exact ((C4_phys_priv_page_step ctx_small (fun a => a)
      { st_c4 with cnt_lines_per_set := fun _ => 1 } 0).1 (by decide)).2.1

/-- C4 counterexample: slot 1 of the page at 0 maps to set 1, which is
already full (`associativity = 1`), yet the whole page is accepted —
the fill index advances by the group size (64 slots of a 4096-byte
page) and set 1's counter rises to 17 — because the code checks only
slot 0's set.  This falsifies "if any slot maps to a full set, the
whole page is rejected and no counter changes". -/
theorem C4_counterexample :
    get_phys_cache_set ctx_small (fun a => a) (0 + CACHELINE_SIZE * 1) = 1 ∧
    ctx_small.associativity ≤ st_c4.cnt_lines_per_set 1 ∧
    (allocate_cache_ds_phys_priv_step ctx_small (fun a => a) st_c4 0).cl_ptr_idx
      = CACHE_GROUP_SIZE ∧
    ctx_small.associativity
      < (allocate_cache_ds_phys_priv_step ctx_small (fun a => a)
          st_c4 0).cnt_lines_per_set 1 := by
  refine ⟨by decide, by decide, by decide, by decide⟩

theorem get_avg_succ (arr : Nat → Nat) (n : Nat) :
    get_avg arr (n + 1)
      = ((n : ℚ) * get_avg arr n + (arr n : ℚ)) / ((n : ℚ) + 1) := by
  unfold get_avg
  rw [List.range_succ, List.foldl_append]
  simp only [List.foldl_cons, List.foldl_nil]

theorem get_avg_eq_mean (arr : Nat → Nat) :
    ∀ n, get_avg arr n = (∑ i ∈ Finset.range n, (arr i : ℚ)) / n := by
  intro n
  induction n with
  | zero => simp [get_avg]
  | succ n ih =>
      rw [get_avg_succ, ih, Finset.sum_range_succ]
      rcases Nat.eq_zero_or_pos n with rfl | hn
      · simp
      · have hn' : (n : ℚ) ≠ 0 := Nat.cast_ne_zero.mpr (by omega)
        have hn1 : (n : ℚ) + 1 ≠ 0 := by positivity
        push_cast
        field_simp

theorem get_avg_const (arr : Nat → Nat) (n c : Nat) (hn : 0 < n)
    (hc : ∀ i, i < n → arr i = c) : get_avg arr n = c := by
  rw [get_avg_eq_mean]
  have hs : (∑ i ∈ Finset.range n, (arr i : ℚ)) = (n : ℚ) * c := by
    rw [Finset.sum_congr rfl
      (fun i hi => by rw [hc i (Finset.mem_range.mp hi)])]
    simp [Finset.sum_const, Finset.card_range, mul_comm]
  have hn' : (n : ℚ) ≠ 0 := Nat.cast_ne_zero.mpr (by omega)
  rw [hs, mul_div_cancel_left₀ _ hn']

theorem get_min_succ (arr : Nat → Nat) (n : Nat) :
    get_min arr (n + 1)
      = if arr n < get_min arr n then arr n else get_min arr n := by
  unfold get_min
  rw [List.range_succ, List.foldl_append]
  simp only [List.foldl_cons, List.foldl_nil]

theorem get_min_le (arr : Nat → Nat) :
    ∀ n i, i < n → get_min arr n ≤ arr i := by
  intro n
  induction n with
  | zero => intro i hi; omega
  | succ n ih =>
      intro i hi
      rw [get_min_succ]
      rcases Nat.lt_or_ge i n with h1 | h1
      · have := ih i h1
        split <;> omega
      · have h2 : i = n := by omega
        subst h2
        split <;> omega

theorem get_min_attained (arr : Nat → Nat) (n : Nat) (hn : 0 < n)
    (hv : ∀ i, i < n → arr i < 2 ^ 32) :
    ∃ i, i < n ∧ get_min arr n = arr i := by
  have main : ∀ m, get_min arr m = UINT32_MAX ∨
      ∃ i, i < m ∧ get_min arr m = arr i := by
    intro m
    induction m with
    | zero => left; rfl
    | succ m ih =>
        rw [get_min_succ]
        split
        · right; exact ⟨m, by omega, rfl⟩
        · rcases ih with hmax | ⟨i, hi, he⟩
          · left; exact hmax
          · right; exact ⟨i, by omega, he⟩
  rcases main n with hmax | ⟨i, hi, he⟩
  · have h0 := get_min_le arr n 0 hn
    have hv0 := hv 0 hn
    refine ⟨0, hn, ?_⟩
    rw [hmax] at h0 ⊢
    simp [UINT32_MAX] at h0 ⊢
    omega
  · exact ⟨i, hi, he⟩

theorem get_min_const (arr : Nat → Nat) (n c : Nat) (hn : 0 < n)
    (hc32 : c < 2 ^ 32) (hc : ∀ i, i < n → arr i = c) :
    get_min arr n = c := by
  obtain ⟨i, hi, he⟩ := get_min_attained arr n hn
    (fun i hi => by rw [hc i hi]; exact hc32)
  rw [he, hc i hi]

theorem mod_cycle_next_prev (R r : Nat) (hR : 1 ≤ R) (hr : r < R) :
    ((r + 1) % R + (R - 1)) % R = r := by
  rw [Nat.mod_add_mod]
  have he : r + 1 + (R - 1) = r + R := by omega
  rw [he, Nat.add_mod_right, Nat.mod_eq_of_lt hr]

theorem mod_cycle_prev_next (R r : Nat) (hR : 1 ≤ R) (hr : r < R) :
    ((r + (R - 1)) % R + 1) % R = r := by
  rw [Nat.mod_add_mod]
  have he : r + (R - 1) + 1 = r + R := by omega
  rw [he, Nat.add_mod_right, Nat.mod_eq_of_lt hr]

theorem mod_succ_ne_self (R r : Nat) (hR : 2 ≤ R) (hr : r < R) :
    (r + 1) % R ≠ r := by
  rcases Nat.lt_or_ge (r + 1) R with h | h
  · rw [Nat.mod_eq_of_lt h]; omega
  · have he : r + 1 = R := by omega
    rw [he, Nat.mod_self]; omega

theorem mod_prev_ne_self (R r : Nat) (hR : 2 ≤ R) (hr : r < R) :
    (r + (R - 1)) % R ≠ r := by
  rcases Nat.eq_zero_or_pos r with rfl | hp
  · rw [Nat.zero_add, Nat.mod_eq_of_lt (by omega)]; omega
  · have h1 : R ≤ r + (R - 1) := by omega
    have h2 : r + (R - 1) - R = r - 1 := by omega
    rw [Nat.mod_eq_sub_mod h1, h2, Nat.mod_eq_of_lt (by omega)]
    omega

theorem cl_replace_roundtrip (h : Heap) (a b : Nat)
    (hn : (h b).next ≠ b) (hp : (h b).prev ≠ b)
    (hab : a ≠ b) (han : a ≠ (h b).next) (hap : a ≠ (h b).prev)
    (hr1 : (h ((h b).next)).prev = b) (hr2 : (h ((h b).prev)).next = b) :
    ∀ x, x ≠ a → (cl_replace (cl_replace h a b) b a) x = h x := by
  have hn' : b ≠ (h b).next := Ne.symm hn
  have hp' : b ≠ (h b).prev := Ne.symm hp
  have hab' : b ≠ a := Ne.symm hab
  have han' : (h b).next ≠ a := Ne.symm han
  have hap' : (h b).prev ≠ a := Ne.symm hap
  have e1 : cl_replace h a b =
      setPrev (setNext (setNext (setPrev h ((h b).next) a) ((h b).prev) a)
        a ((h b).next)) a ((h b).prev) :=
    cl_replace_normal h a b hn hp hab
  have f3 : ((cl_replace h a b) a).next = (h b).next := by rw [e1]; simp
  have f4 : ((cl_replace h a b) a).prev = (h b).prev := by rw [e1]; simp
  have hrn : ((cl_replace h a b) a).next ≠ a := by rw [f3]; exact han'
  have hrp : ((cl_replace h a b) a).prev ≠ a := by rw [f4]; exact hap'
  have e2 : cl_replace (cl_replace h a b) b a =
      setPrev (setNext (setNext (setPrev (cl_replace h a b)
        ((cl_replace h a b) a).next b) ((cl_replace h a b) a).prev b) b
        ((cl_replace h a b) a).next) b ((cl_replace h a b) a).prev :=
    cl_replace_normal (cl_replace h a b) b a hrn hrp hab'
  intro x hx
  rw [e2, f3, f4]
  apply cacheline_ext
  · simp only [next_setPrev, next_setNext]
    by_cases hxb : x = b
    · subst hxb
      simp
    · rw [if_neg hxb]
      by_cases hxp : x = (h b).prev
      · subst hxp
        rw [if_pos rfl, hr2]
      · rw [if_neg hxp, e1]
        simp only [next_setPrev, next_setNext]
        rw [if_neg hx, if_neg hxp]
  · simp only [prev_setPrev, prev_setNext]
    by_cases hxb : x = b
    · subst hxb
      simp
    · rw [if_neg hxb]
      by_cases hxn : x = (h b).next
      · subst hxn
        rw [if_pos rfl, hr1]
      · rw [if_neg hxn, e1]
        simp only [prev_setPrev, prev_setNext]
        rw [if_neg hx, if_neg hxn]
  · simp
  · simp
  · simp

theorem has_collision_step_spec (t : Nat → Nat) (h : Heap)
    (ord : Nat → Nat) (R : Nat) (cand : Nat)
    (hring : ring_linked h ord R) (hnd : ring_nodup ord R) (hR : 2 ≤ R)
    (hcand : ∀ p, p < R → ord p ≠ cand) (r : Nat) (hr : r < R)
    (st : HasCollisionState) (hsh : ∀ x, x ≠ cand → st.h x = h x)
    (hhead : st.cl_head = ord r) :
    (has_collision_step t cand st).cl_head = ord ((r + 1) % R) ∧
    (∀ x, x ≠ cand → (has_collision_step t cand st).h x = h x) ∧
    (has_collision_step t cand st).tcnt = st.tcnt + 2 * COLLISION_REP ∧
    (has_collision_step t cand st).collisions_overall
      = st.collisions_overall +
        (if ((u32_sub (u32_add (get_min (fun i => t (st.tcnt + i)) COLLISION_REP)
              L3_ACCESS_TIME) L2_ACCESS_TIME : Nat) : ℚ)
            ≤ get_avg (fun i => t (st.tcnt + COLLISION_REP + i)) COLLISION_REP
         then 1 else 0) := by
  have hb : st.cl_head ≠ cand := by rw [hhead]; exact hcand r hr
  have hnext_lt : (r + 1) % R < R := Nat.mod_lt _ (by omega)
  have hprev_lt : (r + (R - 1)) % R < R := Nat.mod_lt _ (by omega)
  have hsn : (st.h st.cl_head).next = ord ((r + 1) % R) := by
    rw [hhead, hsh (ord r) (hcand r hr)]
    exact (hring r hr).1
  have hsp : (st.h st.cl_head).prev = ord ((r + (R - 1)) % R) := by
    rw [hhead, hsh (ord r) (hcand r hr)]
    exact (hring r hr).2
  have hnb : (st.h st.cl_head).next ≠ st.cl_head := by
    rw [hsn, hhead]
    intro he
    exact mod_succ_ne_self R r hR hr (hnd _ hnext_lt _ hr he)
  have hpb : (st.h st.cl_head).prev ≠ st.cl_head := by
    rw [hsp, hhead]
    intro he
    exact mod_prev_ne_self R r hR hr (hnd _ hprev_lt _ hr he)
  have hcb : cand ≠ st.cl_head := by
    rw [hhead]; exact Ne.symm (hcand r hr)
  have hcn : cand ≠ (st.h st.cl_head).next := by
    rw [hsn]; exact Ne.symm (hcand _ hnext_lt)
  have hcp : cand ≠ (st.h st.cl_head).prev := by
    rw [hsp]; exact Ne.symm (hcand _ hprev_lt)
  have hring1 : (st.h ((st.h st.cl_head).next)).prev = st.cl_head := by
    rw [hsn, hsh (ord ((r + 1) % R)) (hcand _ hnext_lt), (hring _ hnext_lt).2,
      hhead]
    rw [mod_cycle_next_prev R r (by omega) hr]
  have hring2 : (st.h ((st.h st.cl_head).prev)).next = st.cl_head := by
    rw [hsp, hsh (ord ((r + (R - 1)) % R)) (hcand _ hprev_lt),
      (hring _ hprev_lt).1, hhead]
    rw [mod_cycle_prev_next R r (by omega) hr]
  have hrt := cl_replace_roundtrip st.h cand st.cl_head hnb hpb hcb hcn hcp
    hring1 hring2
  refine ⟨?_, ?_, rfl, ?_⟩
  · show ((cl_replace (cl_replace st.h cand st.cl_head) st.cl_head cand)
      st.cl_head).next = ord ((r + 1) % R)
    rw [congrArg Cacheline.next (hrt st.cl_head hb), hsn]
  · intro x hx
    show (cl_replace (cl_replace st.h cand st.cl_head) st.cl_head cand) x = h x
    rw [hrt x hx]
    exact hsh x hx
  · show (if _ then st.collisions_overall + 1 else st.collisions_overall) = _
    split <;> rename_i hcond <;> simp [hcond]

theorem has_collision_loop_spec (t : Nat → Nat) (h : Heap)
    (ord : Nat → Nat) (R : Nat) (cand : Nat)
    (hring : ring_linked h ord R) (hnd : ring_nodup ord R) (hR : 2 ≤ R)
    (hcand : ∀ p, p < R → ord p ≠ cand) :
    ∀ fuel r st, r < R → R ≤ r + fuel →
      st.cl_head = ord r → (∀ x, x ≠ cand → st.h x = h x) →
      st.tcnt = 2 * COLLISION_REP * r →
      st.collisions_overall = rotation_votes t r →
      has_collision_loop t cand (ord 0) fuel st
        = some (rotation_votes t R) := by
  intro fuel
  induction fuel with
  | zero => intro r st hr hf _ _ _ _; omega
  | succ f ih =>
      intro r st hr hf hhead hsh htc hv
      obtain ⟨s1, s2, s3, s4⟩ := has_collision_step_spec t h ord R cand
        hring hnd hR hcand r hr st hsh hhead
      simp only [has_collision_loop]
      have hv' : (has_collision_step t cand st).collisions_overall
          = rotation_votes t (r + 1) := by
        rw [s4, hv, htc]
        unfold rotation_votes
        rw [List.range_succ, List.countP_append]
        simp only [List.countP_cons, List.countP_nil]
        by_cases hcond : ((u32_sub (u32_add
            (get_min (fun i => t (2 * COLLISION_REP * r + i)) COLLISION_REP)
            L3_ACCESS_TIME) L2_ACCESS_TIME : Nat) : ℚ)
            ≤ get_avg (fun i => t (2 * COLLISION_REP * r + COLLISION_REP + i))
                COLLISION_REP
        · simp [hcond]
        · simp [hcond]
      rcases Nat.lt_or_ge (r + 1) R with hlt | hge
      · have hne : ¬ ((has_collision_step t cand st).cl_head = ord 0) := by
          rw [s1, Nat.mod_eq_of_lt hlt]
          intro he
          have := hnd _ hlt 0 (by omega) he
          omega
        rw [if_neg hne]
        exact ih (r + 1) _ hlt (by omega)
          (by rw [s1, Nat.mod_eq_of_lt hlt]) s2
          (by rw [s3, htc]; ring) hv'
      · have hrR : r + 1 = R := by omega
        have heq : (has_collision_step t cand st).cl_head = ord 0 := by
          rw [s1, hrR, Nat.mod_self]
        rw [if_pos heq, hv', hrR]

theorem has_collision_ring (ctx : cache_ctx)
    (t : Nat → Nat) (h : Heap) (ord : Nat → Nat) (R cand len fuel : Nat)
    (hring : ring_linked h ord R) (hnd : ring_nodup ord R) (hR : 2 ≤ R)
    (hcand : ∀ p, p < R → ord p ≠ cand) (hfuel : R ≤ fuel) :
    has_collision ctx t h cand (ord 0) len fuel
      = some (decide (u32_sub len ctx.associativity
          ≤ rotation_votes t R)) := by
  unfold has_collision
  rw [has_collision_loop_spec t h ord R cand hring hnd hR hcand fuel 0
    { h := h, cl_head := ord 0, tcnt := 0, collisions_overall := 0 }
    (by omega) (by omega) rfl (fun x _ => rfl) (by simp) (by rfl)]
  rfl

/-- C3: on a linked ring of `R` pairwise distinct lines with the
candidate outside it, `has_collision` runs one voting rotation per
start line — taking the minimum of `COLLISION_REP` oracle times as the
rotation's baseline and the exact mean of the next `COLLISION_REP`
oracle times as its test value, voting when the mean is at least
`baseline + (L3_ACCESS_TIME - L2_ACCESS_TIME)` — and returns true
exactly when at least `len - associativity` rotations voted (the code's
threshold; the spec's `len - associativity + 1` is off by one).  The
last two conjuncts certify that `get_avg` is the exact mean and
`get_min` the pointwise minimum. -/
theorem C3_has_collision_votes (ctx : cache_ctx)
    (t : Nat → Nat) (h : Heap) (ord : Nat → Nat) (R cand len fuel : Nat)
    (hring : ring_linked h ord R) (hnd : ring_nodup ord R) (hR : 2 ≤ R)
    (hcand : ∀ p, p < R → ord p ≠ cand) (hfuel : R ≤ fuel) :
    has_collision ctx t h cand (ord 0) len fuel
      = some (decide (u32_sub len ctx.associativity
          ≤ rotation_votes t R)) ∧
    (∀ (arr : Nat → Nat) (n : Nat),
      get_avg arr n = (∑ i ∈ Finset.range n, (arr i : ℚ)) / n) ∧
    (∀ (arr : Nat → Nat) (n i : Nat), i < n → get_min arr n ≤ arr i) ∧
    (∀ (arr : Nat → Nat) (n : Nat), 0 < n → (∀ i, i < n → arr i < 2 ^ 32) →
      ∃ i, i < n ∧ get_min arr n = arr i) :=
  ⟨has_collision_ring ctx t h ord R cand len fuel hring hnd hR hcand hfuel,
   fun arr n => get_avg_eq_mean arr n,
   fun arr n i hi => get_min_le arr n i hi,
   fun arr n hn hv => get_min_attained arr n hn hv⟩

/-- C3 witness: the rotation-vote characterisation on the concrete
three-line ring with an all-zero timing oracle. -/
theorem C3_witness :
    has_collision ctx_small (fun _ => 0) heap3 7 (ord3 0) 3 3
      = some (decide (u32_sub 3 ctx_small.associativity
          ≤ rotation_votes (fun _ => 0) 3)) :=
  (C3_has_collision_votes ctx_small (fun _ => 0) heap3 ord3 3 7 3 3
    (by decide) (by decide) (by decide) (by decide) (by decide)).1

/-- C3 counterexample: on the three-line ring with the `t_c3` oracle,
exactly one rotation votes a collision — equal to
`len - associativity = 3 - 2 = 1`, below the claimed threshold
`len - associativity + 1 = 2` — yet `has_collision` returns true.  The
claim's "returns true exactly when at least len - associativity + 1
rotations vote" is therefore false on the code, whose threshold is
`len - associativity`. -/
theorem C3_counterexample :
    has_collision ctx32 t_c3 heap3 7 (ord3 0) 3 3 = some true ∧
    rotation_votes t_c3 3 = 1 ∧
    ¬ (u32_sub 3 ctx32.associativity + 1 ≤ rotation_votes t_c3 3) := by
  have hmin0 : get_min (fun i => t_c3 (2 * COLLISION_REP * 0 + i))
      COLLISION_REP = 10 := by
    apply get_min_const _ _ _ (by norm_num [COLLISION_REP]) (by norm_num)
    intro i hi
    simp only [COLLISION_REP] at hi ⊢
    unfold t_c3
    rw [if_pos (by omega)]
  have havg0 : get_avg (fun i => t_c3 (2 * COLLISION_REP * 0 + COLLISION_REP + i))
      COLLISION_REP = 50 := by
    apply get_avg_const _ _ _ (by norm_num [COLLISION_REP])
    intro i hi
    simp only [COLLISION_REP] at hi ⊢
    unfold t_c3
    rw [if_neg (by omega), if_pos (by omega)]
  have hmin1 : get_min (fun i => t_c3 (2 * COLLISION_REP * 1 + i))
      COLLISION_REP = 10 := by
    apply get_min_const _ _ _ (by norm_num [COLLISION_REP]) (by norm_num)
    intro i hi
    simp only [COLLISION_REP] at hi ⊢
    unfold t_c3
    rw [if_neg (by omega), if_neg (by omega)]
  have havg1 : get_avg (fun i => t_c3 (2 * COLLISION_REP * 1 + COLLISION_REP + i))
      COLLISION_REP = 10 := by
    apply get_avg_const _ _ _ (by norm_num [COLLISION_REP])
    intro i hi
    simp only [COLLISION_REP] at hi ⊢
    unfold t_c3
    rw [if_neg (by omega), if_neg (by omega)]
  have hmin2 : get_min (fun i => t_c3 (2 * COLLISION_REP * 2 + i))
      COLLISION_REP = 10 := by
    apply get_min_const _ _ _ (by norm_num [COLLISION_REP]) (by norm_num)
    intro i hi
    simp only [COLLISION_REP] at hi ⊢
    unfold t_c3
    rw [if_neg (by omega), if_neg (by omega)]
  have havg2 : get_avg (fun i => t_c3 (2 * COLLISION_REP * 2 + COLLISION_REP + i))
      COLLISION_REP = 10 := by
    apply get_avg_const _ _ _ (by norm_num [COLLISION_REP])
    intro i hi
    simp only [COLLISION_REP] at hi ⊢
    unfold t_c3
    rw [if_neg (by omega), if_neg (by omega)]
  have hvotes : rotation_votes t_c3 3 = 1 := by
    unfold rotation_votes
    rw [show List.range 3 = [0, 1, 2] from rfl]
    simp only [List.countP_cons, List.countP_nil]
    rw [hmin0, havg0, hmin1, havg1, hmin2, havg2]
    norm_num [u32_add, u32_sub, L3_ACCESS_TIME, L2_ACCESS_TIME]
  refine ⟨?_, hvotes, ?_⟩
  · have hh := has_collision_ring ctx32 t_c3 heap3 ord3 3 7 3 3
      (by decide) (by decide) (by decide) (by decide) (by decide)
    rw [hh, hvotes]
    norm_num [ctx32, u32_sub]
  · rw [hvotes]
    norm_num [ctx32, u32_sub]

theorem inv_at_spec (m : Nat → Nat) (len v : Nat)
    (hex : ∃ j, j < len ∧ m j = v) :
    inv_at m len v < len ∧ m (inv_at m len v) = v := by
  obtain ⟨j, hj, hmj⟩ := hex
  have hlt : (List.range len).findIdx (fun j => m j == v)
      < (List.range len).length := by
    apply List.findIdx_lt_length_of_exists
    exact ⟨j, List.mem_range.mpr hj, by simp [hmj]⟩
  have hlen : (List.range len).length = len := List.length_range len
  constructor
  · rw [inv_at]; omega
  · have hg := List.findIdx_getElem (w := hlt)
    rw [List.getElem_range] at hg
    simpa [inv_at] using hg

theorem slot_inj (A s s' r j : Nat) (hr : r < A) (hj : j < A)
    (he : s * A + r = s' * A + j) : s = s' ∧ r = j := by
  rcases Nat.lt_trichotomy s s' with hlt | heq | hgt
  · have h2 : (s + 1) * A ≤ s' * A := Nat.mul_le_mul_right A (by omega)
    rw [Nat.succ_mul] at h2
    omega
  · subst heq; omega
  · have h2 : (s' + 1) * A ≤ s * A := Nat.mul_le_mul_right A (by omega)
    rw [Nat.succ_mul] at h2
    omega

theorem countP_range_mul_div (A : Nat) (hA : 0 < A) (Q : Nat → Bool) :
    ∀ S, (List.range (S * A)).countP (fun p => Q (p / A))
      = A * (List.range S).countP Q := by
  intro S
  induction S with
  | zero => simp
  | succ S ih =>
      have hsa : (S + 1) * A = S * A + A := by ring
      rw [hsa, List.range_add, List.countP_append, ih, List.range_succ,
        List.countP_append, List.countP_map]
      have hdiv : ∀ j, j < A → (S * A + j) / A = S := by
        intro j hj
        rw [Nat.add_comm, Nat.mul_comm, Nat.add_mul_div_left _ _ hA,
          Nat.div_eq_of_lt hj]
        omega
      have hc : (List.range A).countP ((fun p => Q (p / A)) ∘ (S * A + ·))
          = (List.range A).countP (fun _ => Q S) := by
        apply List.countP_congr
        intro x hx
        simp only [Function.comp]
        rw [hdiv x (List.mem_range.mp hx)]
      rw [hc]
      by_cases hq : Q S = true
      · have h1 : (List.range A).countP (fun _ => Q S) = A := by
          rw [show ((List.range A).countP fun _ => Q S)
              = (List.range A).length from
            List.countP_eq_length.mpr (fun a _ => hq), List.length_range]
        have h2 : List.countP Q [S] = 1 := by simp [List.countP_cons, hq]
        rw [h1, h2]
        ring
      · have hq' : Q S = false := by
          rcases Bool.eq_false_or_eq_true (Q S) with hh | hh
          · exact absurd hh hq
          · exact hh
        have h1 : (List.range A).countP (fun _ => Q S) = 0 :=
          List.countP_eq_zero.mpr (fun a _ => by simp [hq'])
        have h2 : List.countP Q [S] = 0 := by simp [List.countP_cons, hq']
        rw [h1, h2]
        ring

theorem countP_range_mul_mod (S : Nat) (hS : 0 < S) (Q : Nat → Bool) :
    ∀ A, (List.range (S * A)).countP (fun p => Q (p % S))
      = A * (List.range S).countP Q := by
  intro A
  induction A with
  | zero => simp
  | succ A ih =>
      have hsa : S * (A + 1) = S * A + S := by ring
      rw [hsa, List.range_add, List.countP_append, ih, List.countP_map]
      have hc : (List.range S).countP ((fun p => Q (p % S)) ∘ (S * A + ·))
          = (List.range S).countP Q := by
        apply List.countP_congr
        intro x hx
        simp only [Function.comp]
        rw [Nat.mul_add_mod, Nat.mod_eq_of_lt (List.mem_range.mp hx)]
      rw [hc]
      ring

theorem countP_range_eq_idx (i0 : Nat) :
    ∀ S, i0 < S → (List.range S).countP (fun i => i = i0) = 1 := by
  intro S
  induction S with
  | zero => omega
  | succ S ih =>
      intro hi0
      rw [List.range_succ, List.countP_append]
      rcases Nat.lt_or_ge i0 S with h | h
      · rw [ih h]
        have hz : List.countP (fun i => decide (i = i0)) [S] = 0 := by
          simp [List.countP_cons]
          omega
        rw [hz]
      · have hi0S : i0 = S := by omega
        subst hi0S
        have h0 : (List.range i0).countP (fun i => i = i0) = 0 :=
          List.countP_eq_zero.mpr (fun a ha => by
            have := List.mem_range.mp ha
            simp
            omega)
        rw [h0]
        simp [List.countP_cons]

theorem countP_range_eq_one (S : Nat) (f : Nat → Nat) (s : Nat)
    (i0 : Nat) (hi0 : i0 < S) (hf : f i0 = s)
    (huniq : ∀ i, i < S → f i = s → i = i0) :
    (List.range S).countP (fun i => f i = s) = 1 := by
  have hc : (List.range S).countP (fun i => f i = s)
      = (List.range S).countP (fun i => i = i0) := by
    apply List.countP_congr
    intro x hx
    have hx' := List.mem_range.mp hx
    simp only [decide_eq_true_eq]
    constructor
    · intro hh; exact huniq x hx' hh
    · intro hh; rw [hh, hf]
  rw [hc, countP_range_eq_idx i0 S hi0]

theorem add_mod_cancel_left_lt (A c x y : Nat) (hx : x < A) (hy : y < A)
    (he : (c + x) % A = (c + y) % A) : x = y := by
  have h1 : x % A = y % A := Nat.ModEq.add_left_cancel' c he
  rw [Nat.mod_eq_of_lt hx, Nat.mod_eq_of_lt hy] at h1
  exact h1

theorem set_mask_pow2 (k : Nat) : SET_MASK (2 ^ k) = 64 * (2 ^ k - 1) := by
  have h1 : SET_MASK (2 ^ k) = (2 ^ (k + 6) - 1) ^^^ (2 ^ 6 - 1) := by
    rw [SET_MASK, CACHELINE_SIZE]
    norm_num [pow_add]
  rw [h1]
  have h2 : 64 * (2 ^ k - 1) = (2 ^ k - 1) <<< 6 := by
    rw [Nat.shiftLeft_eq]
    norm_num [Nat.mul_comm]
  rw [h2]
  apply Nat.eq_of_testBit_eq
  intro i
  rw [Nat.testBit_xor, Nat.testBit_two_pow_sub_one, Nat.testBit_two_pow_sub_one,
    Nat.testBit_shiftLeft, Nat.testBit_two_pow_sub_one]
  by_cases h6 : i < 6 <;> by_cases hk6 : i < k + 6 <;>
    simp [h6, hk6, (by omega : (6 ≤ i) ↔ ¬ (i < 6))] <;> omega

theorem land_mul64 (y m : Nat) : (64 * y) &&& (64 * m) = 64 * (y &&& m) := by
  have e : ∀ z : Nat, 64 * z = z <<< 6 := by
    intro z
    rw [Nat.shiftLeft_eq]
    norm_num [Nat.mul_comm]
  rw [e y, e m, e (y &&& m)]
  apply Nat.eq_of_testBit_eq
  intro i
  rw [Nat.testBit_and, Nat.testBit_shiftLeft, Nat.testBit_shiftLeft,
    Nat.testBit_shiftLeft, Nat.testBit_and]
  by_cases h6 : 6 ≤ i <;> simp [h6]

theorem land_two_pow_sub_one (y k : Nat) : y &&& (2 ^ k - 1) = y % 2 ^ k := by
  apply Nat.eq_of_testBit_eq
  intro i
  rw [Nat.testBit_and, Nat.testBit_two_pow_sub_one, Nat.testBit_mod_two_pow]
  by_cases hk : i < k <;> simp [hk]

theorem get_cache_set_pow2 (k : Nat) (hk : k ≤ 16) (y : Nat) :
    get_cache_set_helper (2 ^ k) (64 * y) = y % 2 ^ k := by
  rw [get_cache_set_helper, CACHELINE_SIZE, set_mask_pow2, land_mul64,
    land_two_pow_sub_one]
  rw [Nat.mul_div_cancel_left _ (by norm_num : 0 < 64)]
  exact Nat.mod_eq_of_lt (lt_of_lt_of_le
    (Nat.mod_lt _ (Nat.pos_pow_of_pos k (by norm_num)))
    (Nat.pow_le_pow_right (by norm_num) hk))

theorem nextIterate_ring (h : Heap) (ord : Nat → Nat) (n : Nat)
    (hring : ring_linked h ord n) (hn : 0 < n) :
    ∀ kk, nextIterate h (ord 0) kk = ord (kk % n) := by
  intro kk
  induction kk with
  | zero =>
      rw [nextIterate, Function.iterate_zero_apply, Nat.zero_mod]
  | succ kk ih =>
      rw [nextIterate, Function.iterate_succ_apply']
      rw [show (fun x => (h x).next)^[kk] (ord 0)
          = nextIterate h (ord 0) kk from rfl, ih]
      rw [(hring (kk % n) (Nat.mod_lt _ hn)).1, Nat.mod_add_mod]

theorem prevIterate_ring (h : Heap) (ord : Nat → Nat) (n : Nat)
    (hring : ring_linked h ord n) (hn : 0 < n) :
    ∀ kk, prevIterate h (ord 0) kk = ord ((n - 1) * kk % n) := by
  intro kk
  induction kk with
  | zero =>
      rw [prevIterate, Function.iterate_zero_apply, Nat.mul_zero, Nat.zero_mod]
  | succ kk ih =>
      rw [prevIterate, Function.iterate_succ_apply']
      rw [show (fun x => (h x).prev)^[kk] (ord 0)
          = prevIterate h (ord 0) kk from rfl, ih]
      rw [(hring ((n - 1) * kk % n) (Nat.mod_lt _ hn)).2, Nat.mod_add_mod]
      rw [Nat.mul_succ]

theorem occ_idx_succ (h : Heap) (arr : Nat → Nat) (k : Nat) :
    ∀ s, occ_idx h arr (k + 1) s
      = occ_idx h arr k s
        ++ (if (h (arr k)).cache_set = s then [k] else []) := by
  intro s
  rw [occ_idx, List.range_succ, List.filter_append, occ_idx]
  congr 1
  by_cases hs : (h (arr k)).cache_set = s <;> simp [hs]

theorem occ_idx_length_le (h : Heap) (arr : Nat → Nat) (N A : Nat)
    (hocc : ∀ s, (List.range N).countP
      (fun i => (h (arr i)).cache_set = s) ≤ A) :
    ∀ s kk, kk ≤ N → (occ_idx h arr kk s).length ≤ A := by
  intro s kk hkk
  have h1 : (occ_idx h arr kk s).length
      = (List.range kk).countP (fun i => (h (arr i)).cache_set = s) := by
    rw [occ_idx, ← List.countP_eq_length_filter]
  have h2 := List.Sublist.countP_le
    (p := fun i => decide ((h (arr i)).cache_set = s))
    (List.range_sublist.mpr hkk)
  have h3 := hocc s
  omega

theorem sort_fold_spec (A : Nat) (hA : 0 < A) (h : Heap) (arr : Nat → Nat)
    (N : Nat)
    (hocc : ∀ s, (List.range N).countP
      (fun i => (h (arr i)).cache_set = s) ≤ A) :
    ∀ k, k ≤ N →
      (∀ s, ((List.range k).foldl (sort_step A h arr)
          { sorted := fun _ => 0, idx_per_set := fun _ => 0 }).idx_per_set s
        = (occ_idx h arr k s).length) ∧
      (∀ s r, r < (occ_idx h arr k s).length →
        ((List.range k).foldl (sort_step A h arr)
          { sorted := fun _ => 0, idx_per_set := fun _ => 0 }).sorted (s * A + r)
        = arr ((occ_idx h arr k s).getD r 0)) := by
  intro k
  induction k with
  | zero =>
      intro _
      constructor
      · intro s; simp [occ_idx]
      · intro s r hr; simp [occ_idx] at hr
  | succ k ih =>
      intro hk
      obtain ⟨ih1, ih2⟩ := ih (by omega)
      rw [List.range_succ, List.foldl_append]
      simp only [List.foldl_cons, List.foldl_nil]
      have hjA : (occ_idx h arr k ((h (arr k)).cache_set)).length < A := by
        have h1 := occ_idx_length_le h arr N A hocc ((h (arr k)).cache_set)
          (k + 1) hk
        rw [occ_idx_succ] at h1
        simp at h1
        omega
      constructor
      · intro s
        simp only [sort_step]
        by_cases hs : s = (h (arr k)).cache_set
        · subst hs
          rw [if_pos rfl, ih1, occ_idx_succ]
          simp
        · rw [if_neg hs, ih1, occ_idx_succ]
          rw [if_neg (fun hh => hs hh.symm)]
          simp
      · intro s r hr
        simp only [sort_step]
        by_cases hs : s = (h (arr k)).cache_set
        · subst hs
          rcases Nat.lt_or_ge r
            (occ_idx h arr k ((h (arr k)).cache_set)).length with hrk | hrk
          · have hne : (h (arr k)).cache_set * A + r
                ≠ (h (arr k)).cache_set * A
                  + ((List.range k).foldl (sort_step A h arr)
                    { sorted := fun _ => 0,
                      idx_per_set := fun _ => 0 }).idx_per_set
                    ((h (arr k)).cache_set) := by
              rw [ih1]
              omega
            rw [if_neg hne, ih2 _ r hrk, occ_idx_succ, if_pos rfl,
              List.getD_append _ _ _ _ hrk]
          · have hlen : r = (occ_idx h arr k ((h (arr k)).cache_set)).length := by
              rw [occ_idx_succ, if_pos rfl] at hr
              simp at hr
              omega
            have heq : (h (arr k)).cache_set * A + r
                = (h (arr k)).cache_set * A
                  + ((List.range k).foldl (sort_step A h arr)
                    { sorted := fun _ => 0,
                      idx_per_set := fun _ => 0 }).idx_per_set
                    ((h (arr k)).cache_set) := by
              rw [ih1, hlen]
            rw [if_pos heq, occ_idx_succ, if_pos rfl,
              List.getD_append_right _ _ _ _ (by omega), hlen]
            simp
        · have hrA : r < A := by
            have := occ_idx_length_le h arr N A hocc s (k + 1) hk
            omega
          have hocc_eq : occ_idx h arr (k + 1) s = occ_idx h arr k s := by
            rw [occ_idx_succ, if_neg (fun hh => hs hh.symm)]
            simp
          have hne : s * A + r
              ≠ (h (arr k)).cache_set * A
                + ((List.range k).foldl (sort_step A h arr)
                  { sorted := fun _ => 0,
                    idx_per_set := fun _ => 0 }).idx_per_set
                  ((h (arr k)).cache_set) := by
            rw [ih1]
            intro he
            exact hs (slot_inj A s ((h (arr k)).cache_set) r _ hrA hjA he).1
          have hr' : r < (occ_idx h arr k s).length := by
            rw [hocc_eq] at hr
            exact hr
          rw [if_neg hne, hocc_eq]
          exact ih2 s r hr'

theorem brl_step_next (b m : Nat → Nat) (len : Nat) (h : Heap) (i x : Nat) :
    ((brl_step b m len h i) x).next
      = if x = b (m i) then b (m ((i + 1) % len)) else (h x).next := by
  unfold brl_step
  split <;> simp

theorem brl_step_prev (b m : Nat → Nat) (len : Nat) (h : Heap) (i x : Nat) :
    ((brl_step b m len h i) x).prev
      = if x = b (m i) then b (m ((len - 1 + i) % len)) else (h x).prev := by
  unfold brl_step
  split <;> simp

theorem brl_step_cache_set (b m : Nat → Nat) (len : Nat) (h : Heap) (i x : Nat) :
    ((brl_step b m len h i) x).cache_set = (h x).cache_set := by
  unfold brl_step
  split <;> simp

theorem brl_step_frame (b m : Nat → Nat) (len : Nat) (h : Heap) (i x : Nat)
    (hx1 : x ≠ b (m i)) (hx2 : x ≠ b (m ((len - 1 + i) % len))) :
    (brl_step b m len h i) x = h x := by
  unfold brl_step
  split <;> apply cacheline_ext <;> simp [hx1, hx2]

theorem brl_fold_spec (b m : Nat → Nat) (len : Nat) (h : Heap)
    (hb : ∀ x, x < len → ∀ y, y < len → b x = b y → x = y)
    (hm : ∀ i, i < len → m i < len)
    (hminj : ∀ i, i < len → ∀ j, j < len → m i = m j → i = j) :
    ∀ k, k ≤ len →
      (∀ j, j < k →
        (((List.range k).foldl (brl_step b m len) h) (b (m j))).next
          = b (m ((j + 1) % len)) ∧
        (((List.range k).foldl (brl_step b m len) h) (b (m j))).prev
          = b (m ((len - 1 + j) % len))) ∧
      (∀ x, (∀ j, j < len → x ≠ b (m j)) →
        ((List.range k).foldl (brl_step b m len) h) x = h x) ∧
      (∀ x, (((List.range k).foldl (brl_step b m len) h) x).cache_set
          = (h x).cache_set) := by
  intro k
  induction k with
  | zero =>
      intro _
      exact ⟨fun j hj => by omega, fun x _ => rfl, fun x => rfl⟩
  | succ k ih =>
      intro hk
      obtain ⟨ih1, ih2, ih3⟩ := ih (by omega)
      rw [List.range_succ, List.foldl_append]
      simp only [List.foldl_cons, List.foldl_nil]
      have hklen : k < len := by omega
      refine ⟨?_, ?_, ?_⟩
      · intro j hj
        rcases Nat.lt_or_ge j k with hjk | hjk
        · have hjlen : j < len := by omega
          have hne : b (m j) ≠ b (m k) := by
            intro he
            have hmj := hm j hjlen
            have hmk := hm k hklen
            have := hb (m j) hmj (m k) hmk he
            have := hminj j hjlen k hklen this
            omega
          rw [brl_step_next, brl_step_prev, if_neg hne, if_neg hne]
          exact ih1 j hjk
        · have hjk' : j = k := by omega
          subst hjk'
          rw [brl_step_next, brl_step_prev, if_pos rfl, if_pos rfl]
          exact ⟨rfl, rfl⟩
      · intro x hx
        have hx1 : x ≠ b (m k) := hx k hklen
        have hlt2 : (len - 1 + k) % len < len := Nat.mod_lt _ (by omega)
        have hx2 : x ≠ b (m ((len - 1 + k) % len)) := hx _ hlt2
        rw [brl_step_frame b m len _ k x hx1 hx2]
        exact ih2 x hx
      · intro x
        rw [brl_step_cache_set]
        exact ih3 x

theorem sets_fold_spec (ctx : cache_ctx) (g : Nat → Nat) (k0 : Nat)
    (sorted : Nat → Nat) (h : Heap) (hA : 0 < ctx.associativity)
    (hinj : ∀ s, s < ctx.sets → ∀ j, j < ctx.associativity →
      ∀ s', s' < ctx.sets → ∀ j', j' < ctx.associativity →
      sorted (s * ctx.associativity + j) = sorted (s' * ctx.associativity + j') →
      s = s' ∧ j = j') :
    ∀ u, u ≤ ctx.sets →
      (∀ s, s < u → ∀ j, j < ctx.associativity →
        ((bcd_sets_fold ctx g k0 sorted h u)
          (sorted (s * ctx.associativity
            + gen_random_indices g (k0 + s * (ctx.associativity - 1))
                ctx.associativity j))).next
          = sorted (s * ctx.associativity
            + gen_random_indices g (k0 + s * (ctx.associativity - 1))
                ctx.associativity ((j + 1) % ctx.associativity)) ∧
        ((bcd_sets_fold ctx g k0 sorted h u)
          (sorted (s * ctx.associativity
            + gen_random_indices g (k0 + s * (ctx.associativity - 1))
                ctx.associativity j))).prev
          = sorted (s * ctx.associativity
            + gen_random_indices g (k0 + s * (ctx.associativity - 1))
                ctx.associativity
                ((ctx.associativity - 1 + j) % ctx.associativity))) ∧
      (∀ x, (∀ s, s < ctx.sets → ∀ j, j < ctx.associativity →
          x ≠ sorted (s * ctx.associativity + j)) →
        (bcd_sets_fold ctx g k0 sorted h u) x = h x) ∧
      (∀ x, ((bcd_sets_fold ctx g k0 sorted h u) x).cache_set
          = (h x).cache_set) := by
  intro u
  induction u with
  | zero =>
      intro _
      exact ⟨fun s hs => by omega, fun x _ => rfl, fun x => rfl⟩
  | succ u ih =>
      intro hu
      obtain ⟨ih1, ih2, ih3⟩ := ih (by omega)
      have hustep : bcd_sets_fold ctx g k0 sorted h (u + 1)
          = (List.range ctx.associativity).foldl
              (brl_step (fun j => sorted (u * ctx.associativity + j))
                (gen_random_indices g (k0 + u * (ctx.associativity - 1))
                  ctx.associativity)
                ctx.associativity)
              (bcd_sets_fold ctx g k0 sorted h u) := by
        simp only [bcd_sets_fold, List.range_succ, List.foldl_append,
          List.foldl_cons, List.foldl_nil, build_randomized_list_for_cache_set]
      have huS : u < ctx.sets := by omega
      have hbrl := brl_fold_spec
        (fun j => sorted (u * ctx.associativity + j))
        (gen_random_indices g (k0 + u * (ctx.associativity - 1))
          ctx.associativity)
        ctx.associativity
        (bcd_sets_fold ctx g k0 sorted h u)
        (fun x hx y hy he => (hinj u huS x hx u huS y hy he).2)
        (fun i hi => gen_random_indices_lt g _ _ i hi)
        (fun i _ j _ he => gen_random_indices_inj g _ _ i j he)
        ctx.associativity (le_refl _)
      obtain ⟨br1, br2, br3⟩ := hbrl
      refine ⟨?_, ?_, ?_⟩
      · intro s hs j hj
        rcases Nat.lt_or_ge s u with hsu | hsu
        · -- a set already built: preserved by the frame of set u's build
          have hmj := gen_random_indices_lt g
            (k0 + s * (ctx.associativity - 1)) ctx.associativity j hj
          have hcond : ∀ jj, jj < ctx.associativity →
              sorted (s * ctx.associativity
                + gen_random_indices g (k0 + s * (ctx.associativity - 1))
                    ctx.associativity j)
              ≠ sorted (u * ctx.associativity
                + gen_random_indices g (k0 + u * (ctx.associativity - 1))
                    ctx.associativity jj) := by
            intro jj hjj he
            have hmjj := gen_random_indices_lt g
              (k0 + u * (ctx.associativity - 1)) ctx.associativity jj hjj
            have := (hinj s (by omega) _ hmj u huS _ hmjj he).1
            omega
          rw [hustep, br2 _ hcond]
          exact ih1 s hsu j hj
        · have hsu' : s = u := by omega
          subst hsu'
          rw [hustep]
          exact br1 j hj
      · intro x hx
        have hcond : ∀ jj, jj < ctx.associativity →
            x ≠ sorted (u * ctx.associativity
              + gen_random_indices g (k0 + u * (ctx.associativity - 1))
                  ctx.associativity jj) := by
          intro jj hjj
          exact hx u huS _ (gen_random_indices_lt g _ _ jj hjj)
        rw [hustep, br2 x hcond]
        exact ih2 x hx
      · intro x
        rw [hustep, br3 x]
        exact ih3 x

theorem mod_succ_inj (S m i : Nat) (hm : m < i) (hi : i < S) :
    (i + 1) % S ≠ (m + 1) % S := by
  have hm1 : (m + 1) % S = m + 1 := Nat.mod_eq_of_lt (by omega)
  rcases Nat.lt_or_ge (i + 1) S with h | h
  · rw [Nat.mod_eq_of_lt h, hm1]; omega
  · have hiS : i + 1 = S := by omega
    rw [hiS, Nat.mod_self, hm1]; omega

theorem relink_fold_spec (sorted idx_map : Nat → Nat) (S A : Nat) (h2 : Heap)
    (lst : Nat → Nat) (hS : 0 < S)
    (ht_lt : ∀ i, i < S → idx_map i < S)
    (ht_inj : ∀ i, i < S → ∀ j, j < S → idx_map i = idx_map j → i = j)
    (hfst_inj : ∀ s, s < S → ∀ s', s' < S →
      sorted (s * A) = sorted (s' * A) → s = s')
    (hlst_inj : ∀ s, s < S → ∀ s', s' < S → lst s = lst s' → s = s')
    (hfp : ∀ s, s < S → (h2 (sorted (s * A))).prev = lst s) :
    ∀ i, i ≤ S →
      (((List.range i).foldl (relink_step sorted idx_map S A)
          { h := h2, curr_cl := (h2 (sorted (idx_map 0 * A))).prev }).curr_cl
        = lst (idx_map (i % S))) ∧
      (∀ m, m < i →
        (((List.range i).foldl (relink_step sorted idx_map S A)
            { h := h2, curr_cl := (h2 (sorted (idx_map 0 * A))).prev }).h
          (lst (idx_map m))).next
          = sorted (idx_map ((m + 1) % S) * A)) ∧
      (∀ x, (∀ m, m < i → x ≠ lst (idx_map m)) →
        (((List.range i).foldl (relink_step sorted idx_map S A)
            { h := h2, curr_cl := (h2 (sorted (idx_map 0 * A))).prev }).h
          x).next = (h2 x).next) ∧
      (∀ m, m < i →
        (((List.range i).foldl (relink_step sorted idx_map S A)
            { h := h2, curr_cl := (h2 (sorted (idx_map 0 * A))).prev }).h
          (sorted (idx_map ((m + 1) % S) * A))).prev = lst (idx_map m)) ∧
      (∀ x, (∀ m, m < i → x ≠ sorted (idx_map ((m + 1) % S) * A)) →
        (((List.range i).foldl (relink_step sorted idx_map S A)
            { h := h2, curr_cl := (h2 (sorted (idx_map 0 * A))).prev }).h
          x).prev = (h2 x).prev) ∧
      (∀ x, ((((List.range i).foldl (relink_step sorted idx_map S A)
          { h := h2, curr_cl := (h2 (sorted (idx_map 0 * A))).prev }).h
        x).cache_set = (h2 x).cache_set)) := by
  intro i
  induction i with
  | zero =>
      intro _
      refine ⟨?_, fun m hm => by omega, fun x _ => rfl,
        fun m hm => by omega, fun x _ => rfl, fun x => rfl⟩
      simp only [List.range_zero, List.foldl_nil]
      rw [Nat.zero_mod]
      exact hfp (idx_map 0) (ht_lt 0 hS)
  | succ i ih =>
      intro hi
      obtain ⟨ic, inm, inf, ipm, ipf, ics⟩ := ih (by omega)
      have hiS : i < S := by omega
      have himod : i % S = i := Nat.mod_eq_of_lt hiS
      rw [himod] at ic
      rw [List.range_succ, List.foldl_append]
      simp only [List.foldl_cons, List.foldl_nil]
      -- unfold one relink step
      set st := (List.range i).foldl (relink_step sorted idx_map S A)
        { h := h2, curr_cl := (h2 (sorted (idx_map 0 * A))).prev } with hst
      have hnext_lt : (i + 1) % S < S := Nat.mod_lt _ (by omega)
      -- the value written into curr->next
      have hnxt : ((setNext st.h st.curr_cl
          (sorted (idx_map ((i + 1) % S) * A))) st.curr_cl).next
          = sorted (idx_map ((i + 1) % S) * A) := by
        rw [next_setNext, if_pos rfl]
      -- the old prev of the first line of the next set is that set's last line
      have hnc : ((setNext st.h st.curr_cl
            (sorted (idx_map ((i + 1) % S) * A)))
          (sorted (idx_map ((i + 1) % S) * A))).prev
          = lst (idx_map ((i + 1) % S)) := by
        rw [prev_setNext]
        rw [ipf _ ?hfresh]
        · exact hfp _ (ht_lt _ hnext_lt)
        case hfresh =>
          intro m hm he
          have hee := hfst_inj _ (ht_lt _ hnext_lt) _
            (ht_lt _ (Nat.mod_lt _ (by omega))) he
          have := ht_inj _ hnext_lt _ (Nat.mod_lt _ (by omega)) hee
          exact mod_succ_inj S m i hm hiS this
      have hstep : relink_step sorted idx_map S A st i
          = { h := setPrev (setNext st.h st.curr_cl
                (sorted (idx_map ((i + 1) % S) * A)))
                (sorted (idx_map ((i + 1) % S) * A)) st.curr_cl,
              curr_cl := lst (idx_map ((i + 1) % S)) } := by
        rw [relink_step]
        simp only [hnxt]
        rw [hnc]
      rw [hstep]
      refine ⟨?_, ?_, ?_, ?_, ?_, ?_⟩
      · exact rfl
      · intro m hm
        rcases Nat.lt_or_ge m i with hmi | hmi
        · have hne : lst (idx_map m) ≠ st.curr_cl := by
            rw [ic]
            intro he
            have := hlst_inj _ (ht_lt m (by omega)) _ (ht_lt i hiS) he
            have := ht_inj _ (by omega) _ hiS this
            omega
          simp only [next_setPrev, next_setNext, if_neg hne]
          exact inm m hmi
        · have hmi' : m = i := by omega
          subst hmi'
          simp only [next_setPrev, next_setNext]
          rw [ic, if_pos rfl]
      · intro x hx
        have hne : x ≠ st.curr_cl := by
          rw [ic]
          exact hx i (by omega)
        simp only [next_setPrev, next_setNext, if_neg hne]
        exact inf x (fun m hm => hx m (by omega))
      · intro m hm
        rcases Nat.lt_or_ge m i with hmi | hmi
        · have hne : sorted (idx_map ((m + 1) % S) * A)
              ≠ sorted (idx_map ((i + 1) % S) * A) := by
            intro he
            have hee := hfst_inj _ (ht_lt _ (Nat.mod_lt _ (by omega))) _
              (ht_lt _ hnext_lt) he
            have := ht_inj _ (Nat.mod_lt _ (by omega)) _ hnext_lt hee
            exact mod_succ_inj S m i hmi hiS this.symm
          simp only [prev_setPrev, if_neg hne]
          rw [prev_setNext]
          exact ipm m hmi
        · have hmi' : m = i := by omega
          subst hmi'
          simp [prev_setPrev, ic]
      · intro x hx
        have hne : x ≠ sorted (idx_map ((i + 1) % S) * A) :=
          hx i (by omega)
        simp only [prev_setPrev, if_neg hne]
        rw [prev_setNext]
        exact ipf x (fun m hm => hx m (by omega))
      · intro x
        simp only [cache_set_setPrev, cache_set_setNext]
        exact ics x

theorem div_mod_repr (A i r : Nat) (hA : 0 < A) (hr : r < A) :
    (i * A + r) / A = i ∧ (i * A + r) % A = r := by
  constructor
  · rw [Nat.add_comm, Nat.mul_comm, Nat.add_mul_div_left _ _ hA,
      Nat.div_eq_of_lt hr]
    omega
  · rw [Nat.add_comm, Nat.mul_comm, Nat.add_mul_mod_self_left,
      Nat.mod_eq_of_lt hr]

theorem pos_bound (S A i r : Nat) (hi : i < S) (hr : r < A) :
    i * A + r < S * A := by
  have h1 : (i + 1) * A ≤ S * A := Nat.mul_le_mul_right A (by omega)
  rw [Nat.succ_mul] at h1
  omega

theorem add_sub_one_mod (N p : Nat) (h1 : 1 ≤ p) (hp : p < N) :
    (p + (N - 1)) % N = p - 1 := by
  have he : p + (N - 1) = (p - 1) + N := by omega
  rw [he, Nat.add_mod_right, Nat.mod_eq_of_lt (by omega)]

theorem getD_nodup_inj (l : List Nat) (hl : l.Nodup) (r r' : Nat)
    (hr : r < l.length) (hr' : r' < l.length)
    (he : l.getD r 0 = l.getD r' 0) : r = r' := by
  rw [List.getD_eq_getElem l 0 hr, List.getD_eq_getElem l 0 hr'] at he
  exact hl.getElem_inj_iff.mp he

theorem add_mod_surj (n c a : Nat) (hn : 0 < n) (ha : a < n) :
    ∃ d, d < n ∧ (c + d) % n = a := by
  refine ⟨(a + (n - c % n)) % n, Nat.mod_lt _ hn, ?_⟩
  rw [Nat.add_mod_mod]
  have h1 := Nat.div_add_mod c n
  have h2 : c % n < n := Nat.mod_lt _ hn
  have h3 : n * (c / n + 1) = n * (c / n) + n := by ring
  have h4 : c + (a + (n - c % n)) = a + n * (c / n + 1) := by omega
  rw [h4, Nat.add_mul_mod_self_left, Nat.mod_eq_of_lt ha]

theorem countP_range_rotate (n c : Nat) (hn : 0 < n) (Q : Nat → Bool) :
    (List.range n).countP (fun d => Q ((c + d) % n))
      = (List.range n).countP Q := by
  have h1 : ((List.range n).map (fun d => (c + d) % n)).countP Q
      = (List.range n).countP (fun d => Q ((c + d) % n)) := by
    rw [List.countP_map]
    rfl
  have hnd : ((List.range n).map (fun d => (c + d) % n)).Nodup := by
    refine List.Nodup.map_on ?_ (List.nodup_range n)
    intro x hx y hy hxy
    exact add_mod_cancel_left_lt n c x y (List.mem_range.mp hx)
      (List.mem_range.mp hy) hxy
  have hperm : ((List.range n).map (fun d => (c + d) % n)).Perm
      (List.range n) := by
    rw [List.perm_ext_iff_of_nodup hnd (List.nodup_range n)]
    intro a
    simp only [List.mem_map, List.mem_range]
    constructor
    · rintro ⟨d, hd, rfl⟩
      exact Nat.mod_lt _ hn
    · intro ha
      obtain ⟨d, hd, hda⟩ := add_mod_surj n c a hn ha
      exact ⟨d, hd, hda⟩
  rw [← h1]
  exact hperm.countP_eq Q

/-- abstract assembly of the ring built by build_cache_ds: given the
per-set ring facts about the intermediate heap `h2` and the relinking
facts about the final heap `h3`, the composite enumeration
`p ↦ sorted (τ (p / A) * A + m (τ (p / A)) ((j0 (τ (p / A)) + p % A) % A))`
traverses one doubly linked ring of length `S * A` forward and
backward, without duplicate addresses. -/
theorem ring_assembly (S A N : Nat) (hS : 0 < S) (hA : 0 < A)
    (hN : N = S * A)
    (sorted : Nat → Nat) (m : Nat → Nat → Nat) (τ : Nat → Nat)
    (j0 : Nat → Nat) (h2 h3 : Heap)
    (hinj : ∀ s, s < S → ∀ j, j < A → ∀ s', s' < S → ∀ j', j' < A →
      sorted (s * A + j) = sorted (s' * A + j') → s = s' ∧ j = j')
    (hm_lt : ∀ s, s < S → ∀ j, j < A → m s j < A)
    (hm_inj : ∀ s, s < S → ∀ j j', m s j = m s j' → j = j')
    (ht_lt : ∀ i, i < S → τ i < S)
    (ht_inj : ∀ i j, τ i = τ j → i = j)
    (hj0_lt : ∀ s, s < S → j0 s < A)
    (hj0 : ∀ s, s < S → m s (j0 s) = 0)
    (hset_next : ∀ s, s < S → ∀ j, j < A →
      (h2 (sorted (s * A + m s j))).next = sorted (s * A + m s ((j + 1) % A)))
    (hset_prev : ∀ s, s < S → ∀ j, j < A →
      (h2 (sorted (s * A + m s j))).prev
        = sorted (s * A + m s ((A - 1 + j) % A)))
    (hrl_nm : ∀ mm, mm < S →
      (h3 (sorted (τ mm * A + m (τ mm) ((A - 1 + j0 (τ mm)) % A)))).next
        = sorted (τ ((mm + 1) % S) * A))
    (hrl_nf : ∀ x, (∀ mm, mm < S →
        x ≠ sorted (τ mm * A + m (τ mm) ((A - 1 + j0 (τ mm)) % A))) →
      (h3 x).next = (h2 x).next)
    (hrl_pm : ∀ mm, mm < S →
      (h3 (sorted (τ ((mm + 1) % S) * A))).prev
        = sorted (τ mm * A + m (τ mm) ((A - 1 + j0 (τ mm)) % A)))
    (hrl_pf : ∀ x, (∀ mm, mm < S → x ≠ sorted (τ ((mm + 1) % S) * A)) →
      (h3 x).prev = (h2 x).prev) :
    (∀ p, p < N →
      (h3 (sorted (τ (p / A) * A
          + m (τ (p / A)) ((j0 (τ (p / A)) + p % A) % A)))).next
        = sorted (τ ((p + 1) % N / A) * A
            + m (τ ((p + 1) % N / A))
                ((j0 (τ ((p + 1) % N / A)) + (p + 1) % N % A) % A))) ∧
    (∀ p, p < N →
      (h3 (sorted (τ (p / A) * A
          + m (τ (p / A)) ((j0 (τ (p / A)) + p % A) % A)))).prev
        = sorted (τ ((p + (N - 1)) % N / A) * A
            + m (τ ((p + (N - 1)) % N / A))
                ((j0 (τ ((p + (N - 1)) % N / A))
                  + (p + (N - 1)) % N % A) % A))) ∧
    (∀ p, p < N → ∀ q, q < N →
      sorted (τ (p / A) * A + m (τ (p / A)) ((j0 (τ (p / A)) + p % A) % A))
        = sorted (τ (q / A) * A + m (τ (q / A)) ((j0 (τ (q / A)) + q % A) % A))
      → p = q) := by
  have hNpos : 0 < N := by
    have := Nat.mul_pos hS hA
    omega
  have hdiv : ∀ p, p < N → p / A < S := by
    intro p hp
    rw [Nat.div_lt_iff_lt_mul hA]
    omega
  refine ⟨?_, ?_, ?_⟩
  · -- forward links
    intro p hp
    have hi : p / A < S := hdiv p hp
    have hkk : p % A < A := Nat.mod_lt _ hA
    have hs : τ (p / A) < S := ht_lt _ hi
    have hrepr : p / A * A + p % A = p := by
      rw [Nat.mul_comm]
      exact Nat.div_add_mod p A
    rcases Nat.lt_or_ge (p % A + 1) A with hc | hc
    · -- within the set ring
      have hlast : ∀ mm, mm < S →
          sorted (τ (p / A) * A + m (τ (p / A)) ((j0 (τ (p / A)) + p % A) % A))
            ≠ sorted (τ mm * A + m (τ mm) ((A - 1 + j0 (τ mm)) % A)) := by
        intro mm hmm he
        obtain ⟨hse, hje⟩ := hinj _ hs _ (hm_lt _ hs _ (Nat.mod_lt _ hA))
          _ (ht_lt _ hmm) _ (hm_lt _ (ht_lt _ hmm) _ (Nat.mod_lt _ hA)) he
        rw [← hse] at hje
        have hje' := hm_inj _ hs _ _ hje
        rw [Nat.add_comm (A - 1) (j0 (τ (p / A)))] at hje'
        have := add_mod_cancel_left_lt A (j0 (τ (p / A))) (p % A) (A - 1)
          hkk (by omega) hje'
        omega
      rw [hrl_nf _ hlast, hset_next _ hs _ (Nat.mod_lt _ hA)]
      have hidx : ((j0 (τ (p / A)) + p % A) % A + 1) % A
          = (j0 (τ (p / A)) + (p % A + 1)) % A := by
        rw [Nat.mod_add_mod, Nat.add_assoc]
      rw [hidx]
      have hb := pos_bound S A (p / A) (p % A + 1) hi hc
      have hp1 : p + 1 < N := by omega
      rw [Nat.mod_eq_of_lt hp1]
      have he1 : p + 1 = p / A * A + (p % A + 1) := by omega
      rw [he1, (div_mod_repr A (p / A) (p % A + 1) hA hc).1,
        (div_mod_repr A (p / A) (p % A + 1) hA hc).2]
    · -- the set's last line: jump to the next set
      have hpa : p % A = A - 1 := by omega
      have hlhs : sorted (τ (p / A) * A
            + m (τ (p / A)) ((j0 (τ (p / A)) + p % A) % A))
          = sorted (τ (p / A) * A
            + m (τ (p / A)) ((A - 1 + j0 (τ (p / A))) % A)) := by
        rw [hpa, Nat.add_comm (j0 (τ (p / A))) (A - 1)]
      rw [hlhs, hrl_nm _ hi]
      have he2 : p + 1 = (p / A + 1) * A := by
        rw [Nat.succ_mul]
        omega
      rcases Nat.lt_or_ge (p / A + 1) S with hlt | hge
      · have hb := pos_bound S A (p / A + 1) 0 hlt hA
        rw [Nat.add_zero] at hb
        have hp1 : p + 1 < N := by omega
        rw [Nat.mod_eq_of_lt hp1, he2]
        have hd := div_mod_repr A (p / A + 1) 0 hA hA
        rw [Nat.add_zero] at hd
        rw [hd.1, hd.2]
        have hs1 : τ (p / A + 1) < S := ht_lt _ hlt
        rw [Nat.add_zero (j0 (τ (p / A + 1))),
          Nat.mod_eq_of_lt (hj0_lt _ hs1), hj0 _ hs1,
          Nat.add_zero (τ (p / A + 1) * A), Nat.mod_eq_of_lt hlt]
      · have hiS : p / A + 1 = S := by omega
        have hp1 : p + 1 = N := by
          rw [he2, hiS, hN]
        rw [hp1, Nat.mod_self, Nat.zero_div, Nat.zero_mod]
        have hs0 : τ 0 < S := ht_lt 0 hS
        rw [Nat.add_zero (j0 (τ 0)), Nat.mod_eq_of_lt (hj0_lt _ hs0),
          hj0 _ hs0, Nat.add_zero (τ 0 * A), hiS, Nat.mod_self]
  · -- backward links
    intro p hp
    have hi : p / A < S := hdiv p hp
    have hkk : p % A < A := Nat.mod_lt _ hA
    have hs : τ (p / A) < S := ht_lt _ hi
    have hrepr : p / A * A + p % A = p := by
      rw [Nat.mul_comm]
      exact Nat.div_add_mod p A
    have hple : p % A ≤ p := Nat.mod_le p A
    rcases Nat.lt_or_ge 0 (p % A) with hc | hc
    · -- not the set's first line
      have hfirst : ∀ mm, mm < S →
          sorted (τ (p / A) * A + m (τ (p / A)) ((j0 (τ (p / A)) + p % A) % A))
            ≠ sorted (τ ((mm + 1) % S) * A) := by
        intro mm hmm he
        have hmm1 : (mm + 1) % S < S := Nat.mod_lt _ (by omega)
        rw [← Nat.add_zero (τ ((mm + 1) % S) * A)] at he
        obtain ⟨hse, hje⟩ := hinj _ hs _ (hm_lt _ hs _ (Nat.mod_lt _ hA))
          _ (ht_lt _ hmm1) 0 hA he
        rw [← hj0 _ hs] at hje
        have hje' := hm_inj _ hs _ _ hje
        have hje'' : (j0 (τ (p / A)) + p % A) % A
            = (j0 (τ (p / A)) + 0) % A := by
          rw [Nat.add_zero, Nat.mod_eq_of_lt (hj0_lt _ hs)]
          exact hje'
        have := add_mod_cancel_left_lt A (j0 (τ (p / A))) (p % A) 0
          hkk hA hje''
        omega
      rw [hrl_pf _ hfirst, hset_prev _ hs _ (Nat.mod_lt _ hA)]
      have hidx2 : (A - 1 + (j0 (τ (p / A)) + p % A) % A) % A
          = (j0 (τ (p / A)) + (p % A - 1)) % A := by
        rw [Nat.add_comm (A - 1) ((j0 (τ (p / A)) + p % A) % A),
          Nat.mod_add_mod]
        have he3 : j0 (τ (p / A)) + p % A + (A - 1)
            = j0 (τ (p / A)) + (p % A - 1) + A := by omega
        rw [he3, Nat.add_mod_right]
      rw [hidx2, add_sub_one_mod N p (by omega) hp]
      have he4 : p - 1 = p / A * A + (p % A - 1) := by omega
      rw [he4, (div_mod_repr A (p / A) (p % A - 1) hA (by omega)).1,
        (div_mod_repr A (p / A) (p % A - 1) hA (by omega)).2]
    · -- the set's first line: jump back to the previous set's last line
      have hc0 : p % A = 0 := by omega
      have hmm0 : ((p / A + (S - 1)) % S + 1) % S = p / A :=
        mod_cycle_prev_next S (p / A) (by omega) hi
      have hmm0S : (p / A + (S - 1)) % S < S := Nat.mod_lt _ (by omega)
      have hlhs2 : sorted (τ (p / A) * A
            + m (τ (p / A)) ((j0 (τ (p / A)) + p % A) % A))
          = sorted (τ (((p / A + (S - 1)) % S + 1) % S) * A) := by
        rw [hc0, Nat.add_zero, Nat.mod_eq_of_lt (hj0_lt _ hs), hj0 _ hs,
          Nat.add_zero, hmm0]
      rw [hlhs2, hrl_pm _ hmm0S]
      rcases Nat.lt_or_ge 0 (p / A) with hpos | hzero
      · have h6 : (p / A - 1) * A + A = p / A * A := by
          rw [← Nat.succ_mul]
          congr 1
          omega
        have hpA : p = p / A * A := by omega
        have hge1 : 1 ≤ p := by omega
        rw [add_sub_one_mod N p hge1 hp]
        have he5 : p - 1 = (p / A - 1) * A + (A - 1) := by omega
        rw [he5, (div_mod_repr A (p / A - 1) (A - 1) hA (by omega)).1,
          (div_mod_repr A (p / A - 1) (A - 1) hA (by omega)).2]
        have hmm0v : (p / A + (S - 1)) % S = p / A - 1 := by
          have he7 : p / A + (S - 1) = p / A - 1 + S := by omega
          rw [he7, Nat.add_mod_right, Nat.mod_eq_of_lt (by omega)]
        rw [hmm0v, Nat.add_comm (A - 1) (j0 (τ (p / A - 1)))]
      · have hz : p / A = 0 := by omega
        rw [hz] at hrepr
        rw [Nat.zero_mul] at hrepr
        have hp0 : p = 0 := by omega
        subst hp0
        rw [Nat.zero_add, Nat.mod_eq_of_lt (show N - 1 < N by omega)]
        have h9 : (S - 1) * A + A = S * A := by
          rw [← Nat.succ_mul]
          congr 1
          omega
        have he8 : N - 1 = (S - 1) * A + (A - 1) := by omega
        rw [he8, (div_mod_repr A (S - 1) (A - 1) hA (by omega)).1,
          (div_mod_repr A (S - 1) (A - 1) hA (by omega)).2]
        have hmm0v : (0 / A + (S - 1)) % S = S - 1 := by
          rw [Nat.zero_div, Nat.zero_add, Nat.mod_eq_of_lt (by omega)]
        rw [hmm0v, Nat.add_comm (A - 1) (j0 (τ (S - 1)))]
  · -- no duplicate addresses
    intro p hp q hq he
    have hip : p / A < S := hdiv p hp
    have hiq : q / A < S := hdiv q hq
    have hkp : p % A < A := Nat.mod_lt _ hA
    have hkq : q % A < A := Nat.mod_lt _ hA
    obtain ⟨hse, hje⟩ := hinj _ (ht_lt _ hip)
      _ (hm_lt _ (ht_lt _ hip) _ (Nat.mod_lt _ hA))
      _ (ht_lt _ hiq) _ (hm_lt _ (ht_lt _ hiq) _ (Nat.mod_lt _ hA)) he
    have hieq : p / A = q / A := ht_inj _ _ hse
    rw [hieq] at hje
    have hje' := hm_inj _ (ht_lt _ hiq) _ _ hje
    have hkeq := add_mod_cancel_left_lt A (j0 (τ (q / A))) (p % A) (q % A)
      hkp hkq hje'
    have h1 : A * (p / A) + p % A = p := Nat.div_add_mod p A
    have h2' : A * (q / A) + q % A = q := Nat.div_add_mod q A
    calc p = A * (p / A) + p % A := h1.symm
      _ = A * (q / A) + q % A := by rw [hieq, hkeq]
      _ = q := h2'

theorem sanity_walk_ring (h : Heap) (ord : Nat → Nat) (n : Nat)
    (hring : ring_linked h ord n) (hnodup : ring_nodup ord n) (hn : 0 < n) :
    ∀ f q cnt, q < n → q + f = n →
      sanity_walk h (ord 0) (ord q) f cnt
        = some (fun s => cnt s
            + (List.range f).countP
                (fun d => (h (ord ((q + 1 + d) % n))).cache_set = s)) := by
  intro f
  induction f with
  | zero => intro q cnt hq hqf; omega
  | succ f ih =>
      intro q cnt hq hqf
      have hnext : (h (ord q)).next = ord ((q + 1) % n) := (hring q hq).1
      simp only [sanity_walk]
      rw [hnext]
      by_cases hq1 : q + 1 = n
      · have hf0 : f = 0 := by omega
        subst hf0
        rw [hq1, Nat.mod_self, if_pos rfl]
        congr 1
        funext s
        have hr1 : List.range 1 = [0] := rfl
        rw [hr1, List.countP_cons, List.countP_nil]
        simp only [Nat.add_zero, Nat.mod_self]
        by_cases hts : s = (h (ord 0)).cache_set
        · rw [if_pos hts,
            if_pos (show decide ((h (ord 0)).cache_set = s) = true by
              simp only [decide_eq_true_eq]; exact hts.symm)]
        · rw [if_neg hts,
            if_neg (show ¬ decide ((h (ord 0)).cache_set = s) = true by
              simp only [decide_eq_true_eq]; exact fun hh => hts hh.symm)]
          omega
      · have hq1n : (q + 1) % n = q + 1 := Nat.mod_eq_of_lt (by omega)
        rw [hq1n]
        have hne : ord (q + 1) ≠ ord 0 := by
          intro he
          have := hnodup (q + 1) (by omega) 0 hn he
          omega
        rw [if_neg hne, ih (q + 1) _ (by omega) (by omega)]
        congr 1
        funext s
        have hcongr : (List.range f).countP
            ((fun d => decide ((h (ord ((q + 1 + d) % n))).cache_set = s))
              ∘ Nat.succ)
            = (List.range f).countP
                (fun d => decide
                  ((h (ord ((q + 1 + 1 + d) % n))).cache_set = s)) := by
          apply List.countP_congr
          intro x hx
          simp only [Function.comp]
          have he : q + 1 + Nat.succ x = q + 1 + 1 + x := by omega
          rw [he]
        rw [List.range_succ_eq_map, List.countP_cons, List.countP_map, hcongr]
        simp only [Nat.add_zero, hq1n]
        by_cases hts : s = (h (ord (q + 1))).cache_set
        · rw [if_pos hts,
            if_pos (show decide ((h (ord (q + 1))).cache_set = s) = true by
              simp only [decide_eq_true_eq]; exact hts.symm)]
          omega
        · rw [if_neg hts,
            if_neg (show ¬ decide ((h (ord (q + 1))).cache_set = s) = true by
              simp only [decide_eq_true_eq]; exact fun hh => hts hh.symm)]
          omega

theorem sanity_check_eq_some (ctx : cache_ctx) (h : Heap) (head fuel : Nat)
    (W : Nat → Nat) (hw : sanity_walk h head head fuel (fun _ => 0) = some W)
    (hall : ∀ i, i < ctx.sets → W i = ctx.associativity) :
    cache_ds_sanity_check ctx h head fuel = some 0 := by
  rw [cache_ds_sanity_check, hw]
  have hall' : (List.range ctx.sets).all
      (fun i => W i = ctx.associativity) = true := by
    rw [List.all_eq_true]
    intro i hi
    simp only [decide_eq_true_eq]
    exact hall i (List.mem_range.mp hi)
  show (if (List.range ctx.sets).all (fun i => W i = ctx.associativity) = true
      then (some 0 : Option Nat) else some 1) = some 0
  rw [if_pos hall']

theorem cache_ds_sanity_ring (ctx : cache_ctx) (h : Heap) (ord : Nat → Nat)
    (hring : ring_linked h ord ctx.nr_of_cachelines)
    (hnodup : ring_nodup ord ctx.nr_of_cachelines)
    (hn : 0 < ctx.nr_of_cachelines)
    (hcount : ∀ s, s < ctx.sets →
      (List.range ctx.nr_of_cachelines).countP
        (fun p => (h (ord p)).cache_set = s) = ctx.associativity) :
    cache_ds_sanity_check ctx h (ord 0) ctx.nr_of_cachelines = some 0 := by
  have hwr := sanity_walk_ring h ord ctx.nr_of_cachelines hring hnodup hn
    ctx.nr_of_cachelines 0 (fun _ => 0) hn (by omega)
  refine sanity_check_eq_some ctx h (ord 0) ctx.nr_of_cachelines _ hwr ?_
  intro i hi
  have hrot := countP_range_rotate ctx.nr_of_cachelines (0 + 1) hn
    (fun p => decide ((h (ord p)).cache_set = i))
  simp only [hrot]
  rw [Nat.zero_add]
  exact hcount i hi

theorem len_loop_ring (h : Heap) (ord : Nat → Nat) (n : Nat)
    (hring : ring_linked h ord n) (hnodup : ring_nodup ord n) (hn : 0 < n)
    (hnull : ∀ p, p < n → ord p ≠ NULL) :
    ∀ q f cnt, 1 ≤ q → q < n → q ≤ f →
      get_cache_ds_len_loop h (ord 0) (ord q) cnt f = some (cnt + q) := by
  intro q
  induction q with
  | zero => intro f cnt h1 _ _; omega
  | succ q ih =>
      intro f cnt _ hq hf
      obtain ⟨f', rfl⟩ : ∃ f', f = f' + 1 := ⟨f - 1, by omega⟩
      simp only [get_cache_ds_len_loop]
      rw [if_neg (hnull _ hq)]
      have hprev : (h (ord (q + 1))).prev = ord q := by
        rw [(hring _ hq).2, add_sub_one_mod n (q + 1) (by omega) hq,
          Nat.add_sub_cancel]
      rw [hprev]
      by_cases hq0 : q = 0
      · subst hq0
        rw [if_pos rfl]
      · have hne : ord q ≠ ord 0 := by
          intro he
          exact hq0 (hnodup q (by omega) 0 (by omega) he)
        rw [if_neg hne, ih f' (cnt + 1) (by omega) (by omega) (by omega)]
        have he : cnt + 1 + q = cnt + (q + 1) := by omega
        rw [he]

theorem get_cache_ds_len_ring (h : Heap) (ord : Nat → Nat) (n : Nat)
    (hring : ring_linked h ord n) (hnodup : ring_nodup ord n) (hn : 0 < n)
    (hnull : ∀ p, p < n → ord p ≠ NULL) (f : Nat) (hf : n ≤ f) :
    get_cache_ds_len h (ord 0) f = some n := by
  rw [get_cache_ds_len]
  obtain ⟨f', rfl⟩ : ∃ f', f = f' + 1 := ⟨f - 1, by omega⟩
  simp only [get_cache_ds_len_loop]
  rw [if_neg (hnull 0 hn)]
  have hprev : (h (ord 0)).prev = ord (n - 1) := by
    rw [(hring 0 hn).2, Nat.zero_add, Nat.mod_eq_of_lt (by omega)]
  rw [hprev]
  by_cases hn1 : n = 1
  · subst hn1
    rw [if_pos rfl]
  · have hne : ord (n - 1) ≠ ord 0 := by
      intro he
      have := hnodup (n - 1) (by omega) 0 hn he
      omega
    rw [if_neg hne,
      len_loop_ring h ord n hring hnodup hn hnull (n - 1) f' 1
        (by omega) (by omega) (by omega)]
    have he : 1 + (n - 1) = n := by omega
    rw [he]

theorem setSet_fold_spec (f v : Nat → Nat) (h : Heap)
    (hf : ∀ i j, f i = f j → i = j) :
    ∀ u,
      (∀ i, i < u →
        (((List.range u).foldl (fun hh i => setSet hh (f i) (v i)) h)
          (f i)).cache_set = v i) ∧
      (∀ x,
        (((List.range u).foldl (fun hh i => setSet hh (f i) (v i)) h) x).next
          = (h x).next ∧
        (((List.range u).foldl (fun hh i => setSet hh (f i) (v i)) h) x).prev
          = (h x).prev) := by
  intro u
  induction u with
  | zero => exact ⟨fun i hi => by omega, fun x => ⟨rfl, rfl⟩⟩
  | succ u ih =>
      obtain ⟨ih1, ih2⟩ := ih
      rw [List.range_succ, List.foldl_append]
      simp only [List.foldl_cons, List.foldl_nil]
      constructor
      · intro i hi
        rw [cache_set_setSet]
        rcases Nat.lt_or_ge i u with hiu | hiu
        · have hne : f i ≠ f u := fun he => by
            have := hf i u he
            omega
          rw [if_neg hne]
          exact ih1 i hiu
        · have hie : i = u := by omega
          subst hie
          rw [if_pos rfl]
      · intro x
        rw [next_setSet, prev_setSet]
        exact ih2 x

/-- the tags assigned by the virtual allocation path: when the number of
sets is a power of two `2 ^ k` (`k ≤ 16`) and the block is line
aligned, line `i` is tagged with `(cl_arr / 64 + i) % 2 ^ k`, and no
`next`/`prev` field changes. -/
theorem allocate_virt_spec (ctx : cache_ctx) (cl_arr : Nat) (h : Heap)
    (k : Nat) (hk : k ≤ 16) (hsets : ctx.sets = 2 ^ k) (hcl : 64 ∣ cl_arr) :
    (∀ i, i < ctx.nr_of_cachelines →
      ((allocate_cache_ds_virt ctx cl_arr h).2
        ((allocate_cache_ds_virt ctx cl_arr h).1 i)).cache_set
        = (cl_arr / 64 + i) % 2 ^ k) ∧
    (∀ x, (((allocate_cache_ds_virt ctx cl_arr h).2) x).next = (h x).next ∧
      (((allocate_cache_ds_virt ctx cl_arr h).2) x).prev = (h x).prev) := by
  obtain ⟨c0, rfl⟩ := hcl
  have hinj : ∀ i j, 64 * c0 + CACHELINE_SIZE * i
      = 64 * c0 + CACHELINE_SIZE * j → i = j := by
    intro i j he
    rw [CACHELINE_SIZE] at he
    omega
  have hfold := setSet_fold_spec
    (fun i => 64 * c0 + CACHELINE_SIZE * i)
    (fun i => get_virt_cache_set ctx (64 * c0 + CACHELINE_SIZE * i))
    h hinj ctx.nr_of_cachelines
  constructor
  · intro i hi
    have h1 := hfold.1 i hi
    have hval : get_virt_cache_set ctx (64 * c0 + CACHELINE_SIZE * i)
        = (64 * c0 / 64 + i) % 2 ^ k := by
      rw [get_virt_cache_set, hsets, CACHELINE_SIZE]
      have he : 64 * c0 + 64 * i = 64 * (c0 + i) := by ring
      rw [he, get_cache_set_pow2 k hk (c0 + i)]
      rw [Nat.mul_div_cancel_left c0 (by norm_num : 0 < 64)]
    rw [← hval]
    exact h1
  · intro x
    exact hfold.2 x

theorem occ_count_le (h : Heap) (arr : Nat → Nat) (N A S : Nat)
    (htag : ∀ i, i < N → (h (arr i)).cache_set < S)
    (hbal : ∀ s, s < S →
      (List.range N).countP (fun i => (h (arr i)).cache_set = s) = A) :
    ∀ s, (List.range N).countP (fun i => (h (arr i)).cache_set = s) ≤ A := by
  intro s
  by_cases hs : s < S
  · rw [hbal s hs]
  · rw [List.countP_eq_zero.mpr ?_]
    · exact Nat.zero_le A
    · intro a ha
      have := htag a (List.mem_range.mp ha)
      simp only [decide_eq_true_eq]
      omega

theorem occ_idx_length_eq (h : Heap) (arr : Nat → Nat) (N A S s : Nat)
    (hs : s < S)
    (hbal : ∀ s, s < S →
      (List.range N).countP (fun i => (h (arr i)).cache_set = s) = A) :
    (occ_idx h arr N s).length = A := by
  rw [occ_idx, ← List.countP_eq_length_filter]
  exact hbal s hs

/-- the sorting pass of build_cache_ds places, at position
`s * associativity + j` of the sorted array, the `j`-th line of set `s`
in allocation order; under balanced per-set counts the entry is a valid
line index with tag `s`. -/
theorem sorted_val (ctx : cache_ctx) (h : Heap) (arr : Nat → Nat)
    (hA : 0 < ctx.associativity)
    (htag : ∀ i, i < ctx.nr_of_cachelines →
      (h (arr i)).cache_set < ctx.sets)
    (hbal : ∀ s, s < ctx.sets →
      (List.range ctx.nr_of_cachelines).countP
        (fun i => (h (arr i)).cache_set = s) = ctx.associativity)
    (s : Nat) (hs : s < ctx.sets) (j : Nat) (hj : j < ctx.associativity) :
    (sort_cls ctx h arr).sorted (s * ctx.associativity + j)
      = arr ((occ_idx h arr ctx.nr_of_cachelines s).getD j 0) ∧
    (occ_idx h arr ctx.nr_of_cachelines s).getD j 0 < ctx.nr_of_cachelines ∧
    (h (arr ((occ_idx h arr ctx.nr_of_cachelines s).getD j 0))).cache_set
      = s := by
  have hocc := occ_count_le h arr ctx.nr_of_cachelines ctx.associativity
    ctx.sets htag hbal
  have hlen := occ_idx_length_eq h arr ctx.nr_of_cachelines
    ctx.associativity ctx.sets s hs hbal
  have hjr : j < (occ_idx h arr ctx.nr_of_cachelines s).length := by omega
  have h1 := (sort_fold_spec ctx.associativity hA h arr
    ctx.nr_of_cachelines hocc ctx.nr_of_cachelines le_rfl).2 s j hjr
  have hmem : (occ_idx h arr ctx.nr_of_cachelines s).getD j 0
      ∈ occ_idx h arr ctx.nr_of_cachelines s := by
    rw [List.getD_eq_getElem _ 0 hjr]
    exact List.getElem_mem hjr
  rw [occ_idx, List.mem_filter] at hmem
  refine ⟨h1, List.mem_range.mp hmem.1, ?_⟩
  have := hmem.2
  simpa using this

/-- distinct positions of the sorted array hold distinct lines: the
set/slot pair is recoverable from the stored pointer. -/
theorem sorted_inj (ctx : cache_ctx) (h : Heap) (arr : Nat → Nat)
    (hA : 0 < ctx.associativity)
    (harr : ∀ i, i < ctx.nr_of_cachelines → ∀ j, j < ctx.nr_of_cachelines →
      arr i = arr j → i = j)
    (htag : ∀ i, i < ctx.nr_of_cachelines →
      (h (arr i)).cache_set < ctx.sets)
    (hbal : ∀ s, s < ctx.sets →
      (List.range ctx.nr_of_cachelines).countP
        (fun i => (h (arr i)).cache_set = s) = ctx.associativity) :
    ∀ s, s < ctx.sets → ∀ j, j < ctx.associativity →
      ∀ s', s' < ctx.sets → ∀ j', j' < ctx.associativity →
      (sort_cls ctx h arr).sorted (s * ctx.associativity + j)
        = (sort_cls ctx h arr).sorted (s' * ctx.associativity + j') →
      s = s' ∧ j = j' := by
  intro s hs j hj s' hs' j' hj' he
  obtain ⟨hv1, hlt1, htg1⟩ := sorted_val ctx h arr hA htag hbal s hs j hj
  obtain ⟨hv2, hlt2, htg2⟩ := sorted_val ctx h arr hA htag hbal s' hs' j' hj'
  rw [hv1, hv2] at he
  have hee := harr _ hlt1 _ hlt2 he
  have hss : s = s' := by rw [← htg1, hee, htg2]
  subst hss
  refine ⟨rfl, ?_⟩
  have hnd : (occ_idx h arr ctx.nr_of_cachelines s).Nodup :=
    (List.nodup_range _).filter _
  have hlen := occ_idx_length_eq h arr ctx.nr_of_cachelines
    ctx.associativity ctx.sets s hs hbal
  exact getD_nodup_inj _ hnd j j' (by omega) (by omega) hee

theorem build_ord_eq (ctx : cache_ctx) (g : Nat → Nat) (k0 : Nat)
    (sorted : Nat → Nat) (p : Nat) :
    build_ord ctx g k0 sorted p
      = sorted (gen_random_indices g
            (k0 + ctx.sets * (ctx.associativity - 1)) ctx.sets
            (p / ctx.associativity) * ctx.associativity
          + gen_random_indices g
              (k0 + gen_random_indices g
                  (k0 + ctx.sets * (ctx.associativity - 1)) ctx.sets
                  (p / ctx.associativity) * (ctx.associativity - 1))
              ctx.associativity
              ((inv_at (gen_random_indices g
                  (k0 + gen_random_indices g
                      (k0 + ctx.sets * (ctx.associativity - 1)) ctx.sets
                      (p / ctx.associativity) * (ctx.associativity - 1))
                  ctx.associativity) ctx.associativity 0
                + p % ctx.associativity) % ctx.associativity)) := rfl

/-- build_cache_ds, run on a pointer array of `sets * associativity`
distinct lines whose tags are balanced over the sets, produces the
two-level randomised structure: the order `build_ord` enumerates one
duplicate-free doubly linked ring of all lines, the returned entry is
its position 0, and every ring position holds one of the input lines,
tagged in the final heap with the set `idx_map (p / associativity)` of
the randomised set order. -/
theorem build_cache_ds_spec (ctx : cache_ctx) (g : Nat → Nat) (k0 : Nat)
    (h : Heap) (arr : Nat → Nat)
    (hS : 0 < ctx.sets) (hA : 0 < ctx.associativity)
    (hN : ctx.nr_of_cachelines = ctx.sets * ctx.associativity)
    (harr : ∀ i, i < ctx.nr_of_cachelines → ∀ j, j < ctx.nr_of_cachelines →
      arr i = arr j → i = j)
    (htag : ∀ i, i < ctx.nr_of_cachelines →
      (h (arr i)).cache_set < ctx.sets)
    (hbal : ∀ s, s < ctx.sets →
      (List.range ctx.nr_of_cachelines).countP
        (fun i => (h (arr i)).cache_set = s) = ctx.associativity) :
    ring_linked (build_cache_ds ctx g k0 h arr).1
      (build_ord ctx g k0 (sort_cls ctx h arr).sorted)
      ctx.nr_of_cachelines ∧
    ring_nodup (build_ord ctx g k0 (sort_cls ctx h arr).sorted)
      ctx.nr_of_cachelines ∧
    (build_cache_ds ctx g k0 h arr).2
      = build_ord ctx g k0 (sort_cls ctx h arr).sorted 0 ∧
    (∀ p, p < ctx.nr_of_cachelines → ∃ i, i < ctx.nr_of_cachelines ∧
      build_ord ctx g k0 (sort_cls ctx h arr).sorted p = arr i ∧
      ((build_cache_ds ctx g k0 h arr).1
        (build_ord ctx g k0 (sort_cls ctx h arr).sorted p)).cache_set
        = gen_random_indices g (k0 + ctx.sets * (ctx.associativity - 1))
            ctx.sets (p / ctx.associativity)) := by
  have hinj := sorted_inj ctx h arr hA harr htag hbal
  have hm_lt : ∀ s, s < ctx.sets → ∀ j, j < ctx.associativity →
      gen_random_indices g (k0 + s * (ctx.associativity - 1))
        ctx.associativity j < ctx.associativity :=
    fun s _ j hj => gen_random_indices_lt g _ _ j hj
  have hm_inj : ∀ s, s < ctx.sets → ∀ j j',
      gen_random_indices g (k0 + s * (ctx.associativity - 1))
        ctx.associativity j
        = gen_random_indices g (k0 + s * (ctx.associativity - 1))
            ctx.associativity j' → j = j' :=
    fun s _ j j' he => gen_random_indices_inj g _ _ j j' he
  have ht_lt : ∀ i, i < ctx.sets →
      gen_random_indices g (k0 + ctx.sets * (ctx.associativity - 1))
        ctx.sets i < ctx.sets :=
    fun i hi => gen_random_indices_lt g _ _ i hi
  have ht_inj : ∀ i j,
      gen_random_indices g (k0 + ctx.sets * (ctx.associativity - 1))
        ctx.sets i
        = gen_random_indices g (k0 + ctx.sets * (ctx.associativity - 1))
            ctx.sets j → i = j :=
    fun i j he => gen_random_indices_inj g _ _ i j he
  have hj0 : ∀ s, s < ctx.sets →
      inv_at (gen_random_indices g (k0 + s * (ctx.associativity - 1))
        ctx.associativity) ctx.associativity 0 < ctx.associativity ∧
      gen_random_indices g (k0 + s * (ctx.associativity - 1))
        ctx.associativity
        (inv_at (gen_random_indices g (k0 + s * (ctx.associativity - 1))
          ctx.associativity) ctx.associativity 0) = 0 := by
    intro s _
    refine inv_at_spec _ ctx.associativity 0 ?_
    obtain ⟨i, hi, hv⟩ := gen_random_indices_surj g
      (k0 + s * (ctx.associativity - 1)) ctx.associativity 0 hA
    exact ⟨i, hi, hv⟩
  have hSF := sets_fold_spec ctx g k0 (sort_cls ctx h arr).sorted h hA hinj
    ctx.sets le_rfl
  have hfst_inj : ∀ s, s < ctx.sets → ∀ s', s' < ctx.sets →
      (sort_cls ctx h arr).sorted (s * ctx.associativity)
        = (sort_cls ctx h arr).sorted (s' * ctx.associativity) → s = s' := by
    intro s hs s' hs' he
    have he' : (sort_cls ctx h arr).sorted (s * ctx.associativity + 0)
        = (sort_cls ctx h arr).sorted (s' * ctx.associativity + 0) := by
      rw [Nat.add_zero (s * ctx.associativity),
        Nat.add_zero (s' * ctx.associativity)]
      exact he
    exact (hinj s hs 0 hA s' hs' 0 hA he').1
  have hlst_inj : ∀ s, s < ctx.sets → ∀ s', s' < ctx.sets →
      (sort_cls ctx h arr).sorted (s * ctx.associativity
        + gen_random_indices g (k0 + s * (ctx.associativity - 1))
            ctx.associativity
            ((ctx.associativity - 1
              + inv_at (gen_random_indices g
                  (k0 + s * (ctx.associativity - 1)) ctx.associativity)
                  ctx.associativity 0) % ctx.associativity))
        = (sort_cls ctx h arr).sorted (s' * ctx.associativity
          + gen_random_indices g (k0 + s' * (ctx.associativity - 1))
              ctx.associativity
              ((ctx.associativity - 1
                + inv_at (gen_random_indices g
                    (k0 + s' * (ctx.associativity - 1)) ctx.associativity)
                    ctx.associativity 0) % ctx.associativity))
      → s = s' := by
    intro s hs s' hs' he
    exact (hinj s hs _ (hm_lt s hs _ (Nat.mod_lt _ hA))
      s' hs' _ (hm_lt s' hs' _ (Nat.mod_lt _ hA)) he).1
  have hfp : ∀ s, s < ctx.sets →
      ((bcd_sets_fold ctx g k0 (sort_cls ctx h arr).sorted h ctx.sets)
        ((sort_cls ctx h arr).sorted (s * ctx.associativity))).prev
        = (sort_cls ctx h arr).sorted (s * ctx.associativity
          + gen_random_indices g (k0 + s * (ctx.associativity - 1))
              ctx.associativity
              ((ctx.associativity - 1
                + inv_at (gen_random_indices g
                    (k0 + s * (ctx.associativity - 1)) ctx.associativity)
                    ctx.associativity 0) % ctx.associativity)) := by
    intro s hs
    have h1 := (hSF.1 s hs
      (inv_at (gen_random_indices g (k0 + s * (ctx.associativity - 1))
        ctx.associativity) ctx.associativity 0) (hj0 s hs).1).2
    rw [(hj0 s hs).2, Nat.add_zero (s * ctx.associativity)] at h1
    exact h1
  have hRL := relink_fold_spec (sort_cls ctx h arr).sorted
    (gen_random_indices g (k0 + ctx.sets * (ctx.associativity - 1)) ctx.sets)
    ctx.sets ctx.associativity
    (bcd_sets_fold ctx g k0 (sort_cls ctx h arr).sorted h ctx.sets)
    (fun s => (sort_cls ctx h arr).sorted (s * ctx.associativity
      + gen_random_indices g (k0 + s * (ctx.associativity - 1))
          ctx.associativity
          ((ctx.associativity - 1
            + inv_at (gen_random_indices g
                (k0 + s * (ctx.associativity - 1)) ctx.associativity)
                ctx.associativity 0) % ctx.associativity)))
    hS ht_lt (fun i _ j _ he => ht_inj i j he) hfst_inj hlst_inj hfp
    ctx.sets le_rfl
  have hcs_all : ∀ x, ((build_cache_ds ctx g k0 h arr).1 x).cache_set
      = (h x).cache_set := by
    intro x
    have h1 : ((build_cache_ds ctx g k0 h arr).1 x).cache_set
        = ((bcd_sets_fold ctx g k0 (sort_cls ctx h arr).sorted h ctx.sets)
            x).cache_set := hRL.2.2.2.2.2 x
    rw [h1]
    exact hSF.2.2 x
  have hASM := ring_assembly ctx.sets ctx.associativity ctx.nr_of_cachelines
    hS hA hN (sort_cls ctx h arr).sorted
    (fun s => gen_random_indices g (k0 + s * (ctx.associativity - 1))
      ctx.associativity)
    (gen_random_indices g (k0 + ctx.sets * (ctx.associativity - 1)) ctx.sets)
    (fun s => inv_at (gen_random_indices g (k0 + s * (ctx.associativity - 1))
      ctx.associativity) ctx.associativity 0)
    (bcd_sets_fold ctx g k0 (sort_cls ctx h arr).sorted h ctx.sets)
    (build_cache_ds ctx g k0 h arr).1
    hinj hm_lt hm_inj ht_lt ht_inj
    (fun s hs => (hj0 s hs).1) (fun s hs => (hj0 s hs).2)
    (fun s hs j hj => (hSF.1 s hs j hj).1)
    (fun s hs j hj => (hSF.1 s hs j hj).2)
    (fun mm hmm => hRL.2.1 mm hmm)
    (fun x hx => hRL.2.2.1 x hx)
    (fun mm hmm => hRL.2.2.2.1 mm hmm)
    (fun x hx => hRL.2.2.2.2.1 x hx)
  obtain ⟨hnext, hprev, hnd⟩ := hASM
  have hs0 : gen_random_indices g
      (k0 + ctx.sets * (ctx.associativity - 1)) ctx.sets 0 < ctx.sets :=
    ht_lt 0 hS
  refine ⟨fun p hp => ⟨hnext p hp, hprev p hp⟩,
    fun p hp q hq he => hnd p hp q hq he, ?_, ?_⟩
  · rw [build_ord_eq, Nat.zero_div, Nat.zero_mod]
    simp only [Nat.add_zero]
    rw [Nat.mod_eq_of_lt (hj0 _ hs0).1, (hj0 _ hs0).2]
    simp only [Nat.add_zero]
    rfl
  · intro p hp
    have hi : p / ctx.associativity < ctx.sets := by
      rw [Nat.div_lt_iff_lt_mul hA]
      omega
    have hs : gen_random_indices g
        (k0 + ctx.sets * (ctx.associativity - 1)) ctx.sets
        (p / ctx.associativity) < ctx.sets := ht_lt _ hi
    have hjlt : (inv_at (gen_random_indices g
          (k0 + gen_random_indices g
              (k0 + ctx.sets * (ctx.associativity - 1)) ctx.sets
              (p / ctx.associativity) * (ctx.associativity - 1))
          ctx.associativity) ctx.associativity 0
        + p % ctx.associativity) % ctx.associativity < ctx.associativity :=
      Nat.mod_lt _ hA
    obtain ⟨hv, hlt, htg⟩ := sorted_val ctx h arr hA htag hbal _ hs
      _ (hm_lt _ hs _ hjlt)
    refine ⟨_, hlt, ?_, ?_⟩
    · rw [build_ord_eq]
      exact hv
    · rw [build_ord_eq, hcs_all, hv]
      exact htg

theorem sanity_check_inv (ctx : cache_ctx) (h : Heap) (head fuel : Nat)
    (hok : cache_ds_sanity_check ctx h head fuel = some 0) :
    ∃ cnt, sanity_walk h head head fuel (fun _ => 0) = some cnt ∧
      ∀ s, s < ctx.sets → cnt s = ctx.associativity := by
  rw [cache_ds_sanity_check] at hok
  rcases hw : sanity_walk h head head fuel (fun _ => 0) with _ | cnt
  · rw [hw] at hok
    exact Option.noConfusion (show (none : Option Nat) = some 0 from hok)
  · rw [hw] at hok
    have hok' : (if (List.range ctx.sets).all
        (fun i => cnt i = ctx.associativity) = true
        then (some 0 : Option Nat) else some 1) = some 0 := hok
    refine ⟨cnt, rfl, ?_⟩
    intro s hs
    by_cases hall : (List.range ctx.sets).all
        (fun i => cnt i = ctx.associativity) = true
    · have h2 := List.all_eq_true.mp hall s (List.mem_range.mpr hs)
      simpa using h2
    · rw [if_neg hall] at hok'
      simp at hok'

theorem prepare_cache_ds_assert (ctx : cache_ctx) (g : Nat → Nat)
    (can_trans : Bool) (phys alloc : Nat → Nat)
    (unpriv : Option ((Nat → Nat) × Heap)) (fuel cl_arr : Nat) (h : Heap)
    (h3 : Heap) (entry : Nat)
    (hp : prepare_cache_ds ctx g can_trans phys alloc unpriv fuel cl_arr h
      = some (h3, entry)) :
    cache_ds_sanity_check ctx h3 entry ctx.nr_of_cachelines = some 0 := by
  rw [prepare_cache_ds] at hp
  rcases hal : allocate_cache_ds ctx can_trans phys alloc unpriv fuel cl_arr h
    with _ | al
  · rw [hal] at hp
    exact Option.noConfusion
      (show (none : Option (Heap × Nat)) = some (h3, entry) from hp)
  · rw [hal] at hp
    rcases hs : cache_ds_sanity_check ctx (build_cache_ds ctx g 0 al.2 al.1).1
        (build_cache_ds ctx g 0 al.2 al.1).2 ctx.nr_of_cachelines
      with _ | v
    · have hp' : (match cache_ds_sanity_check ctx
          (build_cache_ds ctx g 0 al.2 al.1).1
          (build_cache_ds ctx g 0 al.2 al.1).2 ctx.nr_of_cachelines with
        | some 0 => some (build_cache_ds ctx g 0 al.2 al.1)
        | _ => none) = some (h3, entry) := hp
      rw [hs] at hp'
      exact Option.noConfusion
        (show (none : Option (Heap × Nat)) = some (h3, entry) from hp')
    · have hp' : (match cache_ds_sanity_check ctx
          (build_cache_ds ctx g 0 al.2 al.1).1
          (build_cache_ds ctx g 0 al.2 al.1).2 ctx.nr_of_cachelines with
        | some 0 => some (build_cache_ds ctx g 0 al.2 al.1)
        | _ => none) = some (h3, entry) := hp
      rw [hs] at hp'
      rcases v with _ | v'
      · have hbd := Option.some.inj
          (show some (build_cache_ds ctx g 0 al.2 al.1)
            = some (h3, entry) from hp')
        have h1 : (build_cache_ds ctx g 0 al.2 al.1).1 = h3 := by rw [hbd]
        have h2 : (build_cache_ds ctx g 0 al.2 al.1).2 = entry := by rw [hbd]
        rw [← h1, ← h2]
        exact hs
      · exact Option.noConfusion
          (show (none : Option (Heap × Nat)) = some (h3, entry) from hp')

end CacheSC
